import Mathlib

/-!
# Replay of one log line (`play/sender.go`, function `sendRequest`)

A shallow embedding of `sendRequest` and of the library functions it calls.

* A Go `string` is a sequence of bytes.  It is represented by a `String` whose
  characters stand for the bytes (code points below 256); ASCII text reads the same
  on both sides.
* The pure library functions on the path of `sendRequest` (`url.Parse`,
  `(*URL).String`, `http.NewRequest`, `Header.Set`, `errors.Wrap`/`Wrapf`) are
  transcribed from the Go standard library (`net/url`, `net/http`, `net/textproto`,
  `time`, as of Go 1.21) and from `github.com/pkg/errors`.
* Whatever the outside world decides (the answer of the transport, the result of
  draining the body, the two clock readings) is a field of `Env`.
* The package-level counters are the `Stats` record, passed explicitly; the calls
  that touch the outside world are recorded, in order, in a trace of `Event`s.
* Pointers are taken non-nil: `target` and `line` are values.  The `ctx` parameter of
  `sendRequest` is never used by its body and is left out.
-/

namespace Play

/-! ## Errors -/

/-- Go `error` values that can occur on the path of `sendRequest`. -/
inductive GoError where
  /-- Result of `errors.New`: a plain message. -/
  | errorString (s : String)
  /-- Result of `fmt.Errorf` with one `%q` argument: the text before the argument, the
  argument, and the text after it. -/
  | errorf (before arg after : String)
  /-- Type `url.EscapeError`. -/
  | EscapeError (s : String)
  /-- Type `url.InvalidHostError`. -/
  | InvalidHostError (s : String)
  /-- Type `*url.Error` with fields Op, URL, Err. -/
  | urlError (Op URL : String) (Err : GoError)
  /-- Result of `errors.Wrap(cause, msg)` of `github.com/pkg/errors`
  (a `withStack` around a `withMessage`; the stack does not show in `Error()`). -/
  | withMessage (cause : GoError) (msg : String)
  deriving DecidableEq, Repr

/-- Method `Error()` of an error value.  The parameter `quote` stands for
`strconv.Quote`, the function behind the `%q` verb, which is not transcribed (it rests on
the Unicode tables); every statement about a message holds for every `quote`.
`*url.Error` prints `Op "URL": Err` (the URL with `%q`); a wrapped error prints
`msg: cause`. -/
def GoError.Error (quote : String → String) : GoError → String
  | .errorString s => s
  | .errorf before arg after => before ++ quote arg ++ after
  | .EscapeError s => "invalid URL escape " ++ quote s
  | .InvalidHostError s => "invalid character " ++ quote s ++ " in host name"
  | .urlError op url err => op ++ " " ++ quote url ++ ": " ++ err.Error quote
  | .withMessage cause msg => msg ++ ": " ++ cause.Error quote

/-- `errors.Wrap(err, message)` for a non-nil `err` (`github.com/pkg/errors`). -/
def Wrap (err : GoError) (message : String) : GoError :=
  .withMessage err message

/-- `errors.Wrapf(err, format, args...)` for a non-nil `err`; the caller passes the
formatted message. -/
def Wrapf (err : GoError) (formatted : String) : GoError :=
  .withMessage err formatted

/-- `errors.Cause`: follows the chain of wrappers down to the original error. -/
def Cause : GoError → GoError
  | .withMessage cause _ => Cause cause
  | e => e

/-! ## Package `strings`, on byte lists -/

/-- `strings.HasPrefix`. -/
def hasPrefix : List Char → List Char → Bool
  | _, [] => true
  | [], _ :: _ => false
  | c :: s, p :: ps => c == p && hasPrefix s ps

/-- `strings.Cut(s, sep)` for a one-byte separator: the text before the first `sep`,
the text after it, and whether `sep` was found. -/
def cutByte (sep : Char) : List Char → List Char × List Char × Bool
  | [] => ([], [], false)
  | c :: s =>
    if c = sep then ([], s, true)
    else
      let r := cutByte sep s
      (c :: r.1, r.2.1, r.2.2)

/-- `strings.Contains(s, sep)` for a one-byte separator. -/
def containsByte (sep : Char) (s : List Char) : Bool :=
  s.any (fun c => c == sep)

/-- `strings.Count(s, sep)` for a one-byte separator. -/
def countByte (sep : Char) (s : List Char) : Nat :=
  (s.filter (fun c => c == sep)).length

/-- `strings.Index(s, sub)`: position of the first occurrence of `sub`, if any. -/
def indexOf (sub : List Char) : List Char → Option Nat
  | [] => if sub.isEmpty then some 0 else none
  | c :: s =>
    if hasPrefix (c :: s) sub then some 0
    else (indexOf sub s).map (· + 1)

/-- `strings.LastIndex(s, sep)` for a one-byte separator. -/
def lastIndexByte (sep : Char) : List Char → Option Nat
  | [] => none
  | c :: s =>
    match lastIndexByte sep s with
    | some i => some (i + 1)
    | none => if c = sep then some 0 else none

/-- ASCII `strings.ToLower`, used on a scheme (letters, digits, `+`, `-`, `.`). -/
def toLowerASCII (s : List Char) : List Char :=
  s.map (fun c => if 'A' ≤ c ∧ c ≤ 'Z' then Char.ofNat (c.toNat + 32) else c)

/-! ## Package `net/url` -/

/-- Type `url.Userinfo`. -/
structure Userinfo where
  username : String
  password : String
  passwordSet : Bool
  deriving DecidableEq, Repr

/-- Type `url.URL`. -/
structure URL where
  Scheme : String := ""
  Opaque : String := ""
  User : Option Userinfo := none
  Host : String := ""
  Path : String := ""
  RawPath : String := ""
  OmitHost : Bool := false
  ForceQuery : Bool := false
  RawQuery : String := ""
  Fragment : String := ""
  RawFragment : String := ""
  deriving DecidableEq, Repr

/-- The `encoding` modes of `net/url`. -/
inductive encoding where
  | encodePath
  | encodePathSegment
  | encodeHost
  | encodeZone
  | encodeUserPassword
  | encodeQueryComponent
  | encodeFragment
  deriving DecidableEq, Repr

open encoding

/-- Function `ishex`. -/
def ishex (c : Char) : Bool :=
  ('0' ≤ c ∧ c ≤ '9') ∨ ('a' ≤ c ∧ c ≤ 'f') ∨ ('A' ≤ c ∧ c ≤ 'F')

/-- Function `unhex`. -/
def unhex (c : Char) : Nat :=
  if '0' ≤ c ∧ c ≤ '9' then c.toNat - 48
  else if 'a' ≤ c ∧ c ≤ 'f' then c.toNat - 97 + 10
  else if 'A' ≤ c ∧ c ≤ 'F' then c.toNat - 65 + 10
  else 0

/-- Membership of a byte in a set of bytes written as a string. -/
def oneOf (set : String) (c : Char) : Bool :=
  set.data.any (fun d => d == c)

/-- Function `shouldEscape(c, mode)`: whether the byte must be escaped in the given
part of a URL.  Code 39 is the single quote and 34 the double quote. -/
def shouldEscape (c : Char) (mode : encoding) : Bool :=
  if ('a' ≤ c ∧ c ≤ 'z') ∨ ('A' ≤ c ∧ c ≤ 'Z') ∨ ('0' ≤ c ∧ c ≤ '9') then false
  else if (mode = encodeHost ∨ mode = encodeZone) ∧
      (oneOf "!$&()*+,;=:[]<>" c ∨ c.toNat = 39 ∨ c.toNat = 34) then false
  else if oneOf "-_.~" c then false
  else if oneOf "$&+,/:;=?@" c then
    match mode with
    | encodePath => c == '?'
    | encodePathSegment => c == '/' || c == ';' || c == ',' || c == '?'
    | encodeUserPassword => c == '@' || c == '/' || c == '?' || c == ':'
    | encodeQueryComponent => true
    | encodeFragment => false
    | _ => true
  else if mode = encodeFragment ∧ oneOf "!()*" c then false
  else true

/-- First loop of `unescape`: checks that every `%` starts a well-formed escape that
the mode allows, and that a host holds no byte that would need escaping.  Returns the
error of the first offence. -/
def unescapeCheck (mode : encoding) : List Char → Option GoError
  | [] => none
  | '%' :: rest =>
    match rest with
    | a :: b :: rest2 =>
      if !ishex a || !ishex b then
        some (.EscapeError (String.mk ['%', a, b]))
      else if mode = encodeHost ∧ unhex a < 8 ∧ ¬ (a = '2' ∧ b = '5') then
        some (.EscapeError (String.mk ['%', a, b]))
      else if mode = encodeZone ∧ ¬ (a = '2' ∧ b = '5') ∧ unhex a * 16 + unhex b ≠ 32
          ∧ shouldEscape (Char.ofNat (unhex a * 16 + unhex b)) encodeHost then
        some (.EscapeError (String.mk ['%', a, b]))
      else unescapeCheck mode rest2
    | _ => some (.EscapeError (String.mk ('%' :: rest)))
  | c :: rest =>
    if c ≠ '+' ∧ (mode = encodeHost ∨ mode = encodeZone) ∧ c.toNat < 128
        ∧ shouldEscape c encodeHost then
      some (.InvalidHostError (String.mk [c]))
    else unescapeCheck mode rest

/-- Second loop of `unescape`: replaces every escape by its byte, and `+` by a space
in a query component.  It runs on text that passed `unescapeCheck`. -/
def unescapeBuild (mode : encoding) : List Char → List Char
  | [] => []
  | '%' :: a :: b :: rest => Char.ofNat (unhex a * 16 + unhex b) :: unescapeBuild mode rest
  | c :: rest =>
    (if c = '+' ∧ mode = encodeQueryComponent then ' ' else c) :: unescapeBuild mode rest

/-- Function `unescape(s, mode)`.  (Go returns `s` itself when it holds neither `%` nor
a `+` to translate; the second loop gives the same value then.) -/
def unescape (s : List Char) (mode : encoding) : Except GoError (List Char) :=
  match unescapeCheck mode s with
  | some err => .error err
  | none => .ok (unescapeBuild mode s)

/-- Upper-case hexadecimal digit of `n % 16` (`upperhex`). -/
def upperhexDigit (n : Nat) : Char :=
  ("0123456789ABCDEF".data).getD (n % 16) '0'

/-- Function `escape(s, mode)`. -/
def escape (s : List Char) (mode : encoding) : List Char :=
  (s.map (fun c =>
    if c = ' ' ∧ mode = encodeQueryComponent then ['+']
    else if shouldEscape c mode then ['%', upperhexDigit (c.toNat / 16), upperhexDigit c.toNat]
    else [c])).flatten

/-- Function `validEncoded(s, mode)`. -/
def validEncoded (s : List Char) (mode : encoding) : Bool :=
  s.all (fun c =>
    if oneOf "!$&()*+,;=:@" c ∨ c.toNat = 39 then true
    else if c = '[' ∨ c = ']' then true
    else if c = '%' then true
    else !shouldEscape c mode)

/-- Function `stringContainsCTLByte`. -/
def stringContainsCTLByte (s : List Char) : Bool :=
  s.any (fun c => c.toNat < 32 || c.toNat == 127)

/-- The loop of `getScheme` from position `i` on; `acc` holds the bytes already passed,
in reverse.  `none` stands for the error "missing protocol scheme"; otherwise the
scheme and the rest. -/
def getSchemeLoop (rawURL : List Char) : Bool → List Char → List Char →
    Option (List Char × List Char)
  | _, _, [] => some ([], rawURL)
  | first, acc, c :: rest =>
    if ('a' ≤ c ∧ c ≤ 'z') ∨ ('A' ≤ c ∧ c ≤ 'Z') then
      getSchemeLoop rawURL false (c :: acc) rest
    else if ('0' ≤ c ∧ c ≤ '9') ∨ c = '+' ∨ c = '-' ∨ c = '.' then
      if first then some ([], rawURL) else getSchemeLoop rawURL false (c :: acc) rest
    else if c = ':' then
      if first then none else some (acc.reverse, rest)
    else some ([], rawURL)

/-- Function `getScheme(rawURL)`. -/
def getScheme (rawURL : List Char) : Except GoError (List Char × List Char) :=
  match getSchemeLoop rawURL true [] rawURL with
  | none => .error (.errorString "missing protocol scheme")
  | some r => .ok r

/-- Function `validOptionalPort(port)`. -/
def validOptionalPort : List Char → Bool
  | [] => true
  | c :: rest => c == ':' && rest.all (fun b => '0' ≤ b ∧ b ≤ '9')

/-- Function `validUserinfo(s)`. -/
def validUserinfo (s : List Char) : Bool :=
  s.all (fun r =>
    ('A' ≤ r ∧ r ≤ 'Z') ∨ ('a' ≤ r ∧ r ≤ 'z') ∨ ('0' ≤ r ∧ r ≤ '9')
      ∨ oneOf "-._:~!$&()*+,;=%@" r ∨ r.toNat = 39)

/-- The error `fmt.Errorf("invalid port %q after host", colonPort)`. -/
def invalidPort (colonPort : List Char) : GoError :=
  .errorf "invalid port " (String.mk colonPort) " after host"

/-- Function `parseHost(host)`. -/
def parseHost (host : List Char) : Except GoError (List Char) :=
  if hasPrefix host ['['] then
    match lastIndexByte ']' host with
    | none => .error (.errorString "missing ']' in host")
    | some i =>
      let colonPort := host.drop (i + 1)
      if !validOptionalPort colonPort then .error (invalidPort colonPort)
      else
        match indexOf "%25".data (host.take i) with
        | some zone =>
          match unescape (host.take zone) encodeHost with
          | .error err => .error err
          | .ok host1 =>
            match unescape ((host.take i).drop zone) encodeZone with
            | .error err => .error err
            | .ok host2 =>
              match unescape (host.drop i) encodeHost with
              | .error err => .error err
              | .ok host3 => .ok (host1 ++ host2 ++ host3)
        | none => unescape host encodeHost
  else
    match lastIndexByte ':' host with
    | some i =>
      let colonPort := host.drop i
      if !validOptionalPort colonPort then .error (invalidPort colonPort)
      else unescape host encodeHost
    | none => unescape host encodeHost

/-- Function `parseAuthority(authority)`. -/
def parseAuthority (authority : List Char) : Except GoError (Option Userinfo × List Char) :=
  match lastIndexByte '@' authority with
  | none =>
    match parseHost authority with
    | .error err => .error err
    | .ok host => .ok (none, host)
  | some i =>
    match parseHost (authority.drop (i + 1)) with
    | .error err => .error err
    | .ok host =>
      let userinfo := authority.take i
      if !validUserinfo userinfo then .error (.errorString "net/url: invalid userinfo")
      else if !containsByte ':' userinfo then
        match unescape userinfo encodeUserPassword with
        | .error err => .error err
        | .ok username => .ok (some ⟨String.mk username, "", false⟩, host)
      else
        let c := cutByte ':' userinfo
        match unescape c.1 encodeUserPassword with
        | .error err => .error err
        | .ok username =>
          match unescape c.2.1 encodeUserPassword with
          | .error err => .error err
          | .ok password => .ok (some ⟨String.mk username, String.mk password, true⟩, host)

/-- Method `(*URL).setPath(p)`. -/
def URL.setPath (u : URL) (p : List Char) : Except GoError URL :=
  match unescape p encodePath with
  | .error err => .error err
  | .ok path =>
    if p = escape path encodePath then
      .ok { u with Path := String.mk path, RawPath := "" }
    else
      .ok { u with Path := String.mk path, RawPath := String.mk p }

/-- Method `(*URL).setFragment(f)`. -/
def URL.setFragment (u : URL) (f : List Char) : Except GoError URL :=
  match unescape f encodeFragment with
  | .error err => .error err
  | .ok frag =>
    if f = escape frag encodeFragment then
      .ok { u with Fragment := String.mk frag, RawFragment := "" }
    else
      .ok { u with Fragment := String.mk frag, RawFragment := String.mk f }

/-- The query step of `parse`: a lone trailing `?` sets `ForceQuery`; otherwise the
text after the first `?` is the raw query.  Returns the URL and the rest without the
query. -/
def splitQuery (url : URL) (rest0 : List Char) : URL × List Char :=
  if rest0.getLast? = some '?' ∧ countByte '?' rest0 = 1 then
    ({ url with ForceQuery := true }, rest0.dropLast)
  else
    let c := cutByte '?' rest0
    ({ url with RawQuery := String.mk c.2.1 }, c.1)

/-- The split of the text after `//` into the authority and the path that starts at the
first slash. -/
def splitAuthority (authority0 : List Char) : List Char × List Char :=
  match indexOf ['/'] authority0 with
  | some i => (authority0.take i, authority0.drop i)
  | none => (authority0, [])

/-- The last part of `parse`, after scheme and query are split off: an opaque URL, or
authority and path. -/
def parseRest (url : URL) (rest : List Char) : Except GoError URL :=
  if !hasPrefix rest ['/'] ∧ url.Scheme ≠ "" then
    .ok { url with Opaque := String.mk rest }
  else if !hasPrefix rest ['/'] ∧ containsByte ':' (cutByte '/' rest).1 then
    .error (.errorString "first path segment in URL cannot contain colon")
  else if (url.Scheme ≠ "" ∨ !hasPrefix rest ['/', '/', '/']) ∧ hasPrefix rest ['/', '/'] then
    let a := splitAuthority (rest.drop 2)
    match parseAuthority a.1 with
    | .error err => .error err
    | .ok (user, host) => URL.setPath { url with User := user, Host := String.mk host } a.2
  else if url.Scheme ≠ "" ∧ hasPrefix rest ['/'] then
    URL.setPath { url with OmitHost := true } rest
  else URL.setPath url rest

/-- Function `parse(rawURL, viaRequest)` with `viaRequest = false`, the only way
`url.Parse` calls it. -/
def parse (rawURL : List Char) : Except GoError URL :=
  if stringContainsCTLByte rawURL then
    .error (.errorString "net/url: invalid control character in URL")
  else if rawURL = ['*'] then .ok { Path := "*" }
  else
    match getScheme rawURL with
    | .error err => .error err
    | .ok (scheme, rest0) =>
      let q := splitQuery { Scheme := String.mk (toLowerASCII scheme) } rest0
      parseRest q.1 q.2

/-- Function `url.Parse(rawURL)`. -/
def urlParse (rawURL : String) : Except GoError URL :=
  let c := cutByte '#' rawURL.data
  match parse c.1 with
  | .error err => .error (.urlError "parse" (String.mk c.1) err)
  | .ok url =>
    if c.2.1 = [] then .ok url
    else
      match url.setFragment c.2.1 with
      | .error err => .error (.urlError "parse" rawURL err)
      | .ok url => .ok url

/-- Method `(*URL).EscapedPath()`. -/
def URL.EscapedPath (u : URL) : List Char :=
  let dflt : List Char := if u.Path = "*" then ['*'] else escape u.Path.data encodePath
  if u.RawPath ≠ "" ∧ validEncoded u.RawPath.data encodePath then
    match unescape u.RawPath.data encodePath with
    | .ok p => if p = u.Path.data then u.RawPath.data else dflt
    | .error _ => dflt
  else dflt

/-- Method `(*URL).EscapedFragment()`. -/
def URL.EscapedFragment (u : URL) : List Char :=
  let dflt : List Char := escape u.Fragment.data encodeFragment
  if u.RawFragment ≠ "" ∧ validEncoded u.RawFragment.data encodeFragment then
    match unescape u.RawFragment.data encodeFragment with
    | .ok f => if f = u.Fragment.data then u.RawFragment.data else dflt
    | .error _ => dflt
  else dflt

/-- Method `(*Userinfo).String()` on a non-nil receiver. -/
def Userinfo.String (u : Userinfo) : List Char :=
  escape u.username.data encodeUserPassword ++
    (if u.passwordSet then ':' :: escape u.password.data encodeUserPassword else [])

/-- Method `(*URL).String()`: reassembles the URL. -/
def URL.String (u : URL) : String :=
  let scheme : List Char := if u.Scheme ≠ "" then u.Scheme.data ++ [':'] else []
  let body : List Char :=
    if u.Opaque ≠ "" then scheme ++ u.Opaque.data
    else
      let auth : List Char :=
        if u.Scheme ≠ "" ∨ u.Host ≠ "" ∨ u.User.isSome then
          if u.OmitHost ∧ u.Host = "" ∧ u.User.isNone then []
          else
            (if u.Host ≠ "" ∨ u.Path ≠ "" ∨ u.User.isSome then ['/', '/'] else []) ++
            (match u.User with
              | some ui => ui.String ++ ['@']
              | none => []) ++
            (if u.Host ≠ "" then escape u.Host.data encodeHost else [])
        else []
      let path := u.EscapedPath
      let buf := scheme ++ auth ++
        (if path ≠ [] ∧ !hasPrefix path ['/'] ∧ u.Host ≠ "" then ['/'] else [])
      let buf := buf ++
        (if buf = [] ∧ containsByte ':' (cutByte '/' path).1 then ['.', '/'] else [])
      buf ++ path
  let query : List Char :=
    if u.ForceQuery ∨ u.RawQuery ≠ "" then '?' :: u.RawQuery.data else []
  let frag : List Char :=
    if u.Fragment ≠ "" then '#' :: u.EscapedFragment else []
  String.mk (body ++ query ++ frag)

/-! ## Packages `net/textproto` and `net/http` -/

/-- The token table shared by `httpguts.IsTokenRune` and `validHeaderFieldByte`:
letters, digits and the marks of an HTTP token.  Codes 39 and 96 are the single quote and
the grave accent. -/
def isTokenByte (c : Char) : Bool :=
  ('a' ≤ c ∧ c ≤ 'z') ∨ ('A' ≤ c ∧ c ≤ 'Z') ∨ ('0' ≤ c ∧ c ≤ '9')
    ∨ oneOf "!#$%&*+-.^_|~" c ∨ c.toNat = 39 ∨ c.toNat = 96

/-- The rewriting loop of `canonicalMIMEHeaderKey`: upper case at the start and after
each dash, lower case elsewhere. -/
def canonicalLoop : Bool → List Char → List Char
  | _, [] => []
  | upper, c :: rest =>
    let d : Char :=
      if upper ∧ 'a' ≤ c ∧ c ≤ 'z' then Char.ofNat (c.toNat - 32)
      else if ¬ upper ∧ 'A' ≤ c ∧ c ≤ 'Z' then Char.ofNat (c.toNat + 32)
      else c
    d :: canonicalLoop (d == '-') rest

/-- Function `textproto.CanonicalMIMEHeaderKey`: a key made of token bytes is put in
canonical case, any other key is returned unchanged. -/
def CanonicalMIMEHeaderKey (s : String) : String :=
  if s.data.all isTokenByte then String.mk (canonicalLoop true s.data) else s

/-- Type `http.Header`, a map from canonical keys to lists of values, as an
association list read with `List.lookup`. -/
abbrev Header := List (String × List String)

/-- Method `Header.Set(key, value)`: the entry of the canonical key becomes the
one-element list `[value]`. -/
def Header.Set (h : Header) (key value : String) : Header :=
  (CanonicalMIMEHeaderKey key, [value]) ::
    h.filter (fun e => e.1 != CanonicalMIMEHeaderKey key)

/-- Method `Header.Get(key)`: the first value of the canonical key, or the empty string. -/
def Header.Get (h : Header) (key : String) : String :=
  match h.lookup (CanonicalMIMEHeaderKey key) with
  | some (v :: _) => v
  | _ => ""

/-- Type `http.Request`, with the fields that `http.NewRequest` fills in.  `Body` is
`none` for a nil body. -/
structure Request where
  Method : String
  URL : URL
  Proto : String
  ProtoMajor : Nat
  ProtoMinor : Nat
  Header : Header
  Body : Option String
  Host : String
  deriving DecidableEq, Repr

/-- Type `http.Response`, with the fields that `sendRequest` reads. -/
structure Response where
  Status : String
  StatusCode : Int
  deriving DecidableEq, Repr

/-- Function `validMethod(method)` of `net/http`. -/
def validMethod (method : String) : Bool :=
  method.data.length > 0 && method.data.all isTokenByte

/-- Function `hasPort(s)` of `net/http`: the last colon comes after the last closing
bracket. -/
def hasPort (s : List Char) : Bool :=
  match lastIndexByte ':' s, lastIndexByte ']' s with
  | some i, some j => i > j
  | some _, none => true
  | none, _ => false

/-- Function `removeEmptyPort(host)` of `net/http`. -/
def removeEmptyPort (host : String) : String :=
  if hasPort host.data ∧ host.data.getLast? = some ':' then String.mk host.data.dropLast
  else host

/-- Function `http.NewRequest(method, url, body)` (that is
`NewRequestWithContext` with the background context): an empty method means GET, the
method must be a token, the URL is parsed again with `url.Parse`, an empty port is
removed from the host. -/
def NewRequest (method0 url : String) (body : Option String) : Except GoError Request :=
  let method := if method0 = "" then "GET" else method0
  if !validMethod method then
    .error (.errorf "net/http: invalid method " method "")
  else
    match urlParse url with
    | .error err => .error err
    | .ok u =>
      let u := { u with Host := removeEmptyPort u.Host }
      .ok { Method := method, URL := u, Proto := "HTTP/1.1", ProtoMajor := 1,
            ProtoMinor := 1, Header := [], Body := body, Host := u.Host }

/-! ## Package `time` -/

/-- A `time.Time` returned by `time.Now()`: it carries a monotonic clock reading, `ext`,
in nanoseconds (an int64). -/
structure Time where
  ext : Int
  deriving DecidableEq, Repr

/-- Conversion of an integer to int64 (two's complement wrap-around). -/
def toInt64 (x : Int) : Int := (x + 2 ^ 63) % 2 ^ 64 - 2 ^ 63

/-- Constant `maxDuration`. -/
def maxDuration : Int := 2 ^ 63 - 1

/-- Constant `minDuration`. -/
def minDuration : Int := - 2 ^ 63

/-- Constant `time.Millisecond`, in nanoseconds. -/
def Millisecond : Int := 1000000

/-- Method `t.Sub(u)` for two times that both carry a monotonic reading: the difference
of the readings as an int64 `Duration`, saturated when it overflows. -/
def Time.Sub (t u : Time) : Int :=
  let d := toInt64 (t.ext - u.ext)
  if d < 0 ∧ t.ext > u.ext then maxDuration
  else if d > 0 ∧ t.ext < u.ext then minDuration
  else d

/-- Conversion `uint64(x)` of an int64. -/
def toUint64 (x : Int) : Nat := (x % 2 ^ 64).toNat

/-! ## Package `play` -/

/-- The fields of `logLine` that `sendRequest` reads (the type is declared outside
`sender.go`). -/
structure logLine where
  url : String
  method : String
  userAgent : String
  ipclient : String
  deriving DecidableEq, Repr

/-- The package-level accounting state: the success count, the failure count and
`latencySinceEpochMs`, the cumulative latency in milliseconds (a uint64). -/
structure Stats where
  success : Nat
  failure : Nat
  latencySinceEpochMs : Nat
  deriving DecidableEq, Repr

/-- Modelled from the spec: the body of `success()` is not in `sender.go`.  The spec
gives the outcome counters as "a success count, a failure count, ... all updated via
atomic addition", one count per completed attempt: `success()` adds one to the success
count. -/
def success (s : Stats) : Stats := { s with success := s.success + 1 }

/-- Modelled from the spec: the body of `fail()` is not in `sender.go`.  The spec gives
the outcome counters as "a success count, a failure count, ... all updated via atomic
addition", one count per completed attempt: `fail()` adds one to the failure count. -/
def fail (s : Stats) : Stats := { s with failure := s.failure + 1 }

/-- `atomic.AddUint64(&latencySinceEpochMs, delta)`: addition modulo 2^64. -/
def addLatency (s : Stats) (delta : Nat) : Stats :=
  { s with latencySinceEpochMs := (s.latencySinceEpochMs + delta) % 2 ^ 64 }

/-- What the outside world answers during one call of `sendRequest`. -/
structure Env where
  /-- The answer of `httpClient.Do(request)`: a response or an error. -/
  Do : Request → Except GoError Response
  /-- The result of `io.Copy(ioutil.Discard, res.Body)`: bytes copied and an error or nil. -/
  Copy : Response → Int × Option GoError
  /-- The value of the first `time.Now()`. -/
  startTime : Time
  /-- The value of the second `time.Now()`. -/
  endTime : Time

/-- The calls of `sendRequest` that reach outside the function, as they appear in the
trace. -/
inductive Event where
  /-- Call of `log.Debugf` with its format and its string arguments. -/
  | Debugf (format : String) (args : List String)
  /-- Call of `success()`. -/
  | success
  /-- Call of `fail()`. -/
  | fail
  /-- Call of `time.Now()` and the value it returned. -/
  | Now (t : Time)
  /-- Call of `httpClient.Do(request)`. -/
  | Do (request : Request)
  /-- Call of `io.Copy(ioutil.Discard, res.Body)` and what it returned. -/
  | Copy (res : Response) (result : Int × Option GoError)
  /-- Call of `atomic.AddUint64(&latencySinceEpochMs, delta)`. -/
  | AddLatency (delta : Nat)
  /-- The deferred `res.Body.Close()`, run when the function returns. -/
  | Close (res : Response)
  deriving DecidableEq, Repr

/-- The state threaded through a call: the counters and the trace so far. -/
structure World where
  stats : Stats
  trace : List Event
  deriving DecidableEq, Repr

/-- Appends an event to the trace. -/
def World.emit (w : World) (e : Event) : World :=
  { w with trace := w.trace ++ [e] }

/-- Call of `success()`. -/
def World.success (w : World) : World :=
  { stats := Play.success w.stats, trace := w.trace ++ [.success] }

/-- Call of `fail()`. -/
def World.fail (w : World) : World :=
  { stats := Play.fail w.stats, trace := w.trace ++ [.fail] }

/-- Call of `atomic.AddUint64(&latencySinceEpochMs, delta)`. -/
def World.addLatency (w : World) (delta : Nat) : World :=
  { stats := Play.addLatency w.stats delta, trace := w.trace ++ [.AddLatency delta] }

/-- The URL of the line after `u.Host = target.Host; u.Scheme = target.Scheme`
(lines 55-56). -/
def rewriteURL (target u : URL) : URL :=
  let u := { u with Host := target.Host }
  { u with Scheme := target.Scheme }

/-- The four `request.Header.Set` calls (lines 64-67). -/
def setHeaders (target : URL) (line : logLine) (request : Request) : Request :=
  let request := { request with Header := request.Header.Set "User-Agent" line.userAgent }
  let request :=
    { request with Header := request.Header.Set "Accept-Language" "en-US;q=0.9,en;q=0.8" }
  let request := { request with Header := request.Header.Set "Host" target.Host }
  { request with Header := request.Header.Set "X-Forwarded-For" line.ipclient }

/-- The whole milliseconds added to the latency counter (lines 89-90):
`uint64(elapsed/time.Millisecond)` with `elapsed := time.Now().Sub(startTime)`;
the division of int64 values truncates toward zero. -/
def elapsedMs (startTime endTime : Time) : Nat :=
  toUint64 (Int.tdiv (endTime.Sub startTime) Millisecond)

/-- Function `sendRequest(ctx, target, line)` (lines 47-93): sends a request and consumes
the response body.  Returns the error (`none` for nil) and the new state.  The rendering
of `line` by `%v` in the first debug message is not recorded. -/
def sendRequest (env : Env) (target : URL) (line : logLine) (w : World) :
    Option GoError × World :=
  -- line 48
  let w := w.emit (.Debugf "replaying line: %v" [])
  -- lines 49-53
  match urlParse line.url with
  | .error err =>
    let w := w.fail
    (some (Wrapf err ("error parsing URL " ++ line.url)), w)
  | .ok u =>
    -- lines 55-56
    let u := rewriteURL target u
    -- lines 58-62
    match NewRequest line.method u.String none with
    | .error err =>
      let w := w.fail
      (some (Wrap err "error creating request"), w)
    | .ok request =>
      -- lines 64-67
      let request := setHeaders target line request
      -- lines 69-71
      let w := w.emit (.Debugf "Sending %s" [request.URL.String])
      let startTime := env.startTime
      let w := w.emit (.Now startTime)
      let w := w.emit (.Do request)
      match env.Do request with
      | .error err =>
        -- lines 72-75
        let w := w.fail
        (some (Wrapf err ("error sending request for " ++ u.String)), w)
      | .ok res =>
        -- line 77 defers the close to the return; lines 79-84
        let w := w.emit (.Debugf "Response: %s" [res.Status])
        let w := if res.StatusCode ≥ 200 ∧ res.StatusCode < 400 then w.success else w.fail
        -- line 87
        let w := w.emit (.Copy res (env.Copy res))
        -- lines 89-90
        let endTime := env.endTime
        let w := w.emit (.Now endTime)
        let w := w.addLatency (elapsedMs startTime endTime)
        -- line 92, then the deferred close
        let w := w.emit (.Close res)
        (none, w)

/-- A sequence of calls, one after the other, each with its own environment, target and
line. -/
def replayAll (calls : List (Env × URL × logLine)) (w : World) : World :=
  calls.foldl (fun w c => (sendRequest c.1 c.2.1 c.2.2 w).2) w

/-! ## The four ways through `sendRequest` -/

/-- The trace events of a call that stops at a failed `url.Parse` or a failed
`http.NewRequest`. -/
def earlyFailureEvents : List Event :=
  [.Debugf "replaying line: %v" [], .fail]

/-- The trace events of a call up to and including the call of the transport. -/
def sendEvents (env : Env) (request : Request) : List Event :=
  [.Debugf "replaying line: %v" [], .Debugf "Sending %s" [request.URL.String],
   .Now env.startTime, .Do request]

/-- The outcome event for a status code (lines 80-84). -/
def outcomeEvent (code : Int) : Event :=
  if code ≥ 200 ∧ code < 400 then .success else .fail

/-- The outcome counter update for a status code (lines 80-84). -/
def recordOutcome (code : Int) (s : Stats) : Stats :=
  if code ≥ 200 ∧ code < 400 then success s else fail s

/-- The trace events of a call after the transport returned the response `res`. -/
def responseEvents (env : Env) (res : Response) : List Event :=
  [.Debugf "Response: %s" [res.Status], outcomeEvent res.StatusCode,
   .Copy res (env.Copy res), .Now env.endTime,
   .AddLatency (elapsedMs env.startTime env.endTime), .Close res]

/-- Number of calls of `success()` and `fail()` in a trace. -/
def outcomeCalls (tr : List Event) : Nat :=
  tr.countP (fun e => e == Event.success || e == Event.fail)

/-- Whether an event is a call of the transport. -/
def Event.isDo : Event → Bool
  | .Do _ => true
  | _ => false

/-- Whether an event is a read of the response body. -/
def Event.isCopy : Event → Bool
  | .Copy _ _ => true
  | _ => false

/-- Whether an event is an addition to the latency counter. -/
def Event.isAddLatency : Event → Bool
  | .AddLatency _ => true
  | _ => false

/-! ## Concrete inputs -/

/-- The target `https://replay.test`. -/
def targetW : URL := { Scheme := "https", Host := "replay.test" }

/-- A log line for `GET http://origin.example/a/b?x=1#frag`. -/
def lineW : logLine :=
  { url := "http://origin.example/a/b?x=1#frag", method := "GET",
    userAgent := "curl/8.0", ipclient := "203.0.113.7" }

/-- What `url.Parse` returns for the URL of `lineW`. -/
def parsedW : URL :=
  { Scheme := "http", Host := "origin.example", Path := "/a/b", RawQuery := "x=1",
    Fragment := "frag" }

/-- What `http.NewRequest` returns for `lineW` rewritten onto `targetW`. -/
def requestW : Request :=
  { Method := "GET",
    URL := { Scheme := "https", Host := "replay.test", Path := "/a/b", RawQuery := "x=1",
             Fragment := "frag" },
    Proto := "HTTP/1.1", ProtoMajor := 1, ProtoMinor := 1, Header := [], Body := none,
    Host := "replay.test" }

/-- A log line whose URL does not parse. -/
def lineBad : logLine :=
  { url := "http://%zz", method := "GET", userAgent := "curl/8.0", ipclient := "203.0.113.7" }

/-- The error of `url.Parse` on the URL of `lineBad`. -/
def parseErrW : GoError :=
  .urlError "parse" "http://%zz" (.EscapeError "%zz")

/-- An environment whose transport answers every request with the given status code,
whose body drains without error, and whose clock advances by 5 ms and 1000 ns. -/
def envStatus (status : String) (code : Int) : Env :=
  { Do := fun _ => .ok { Status := status, StatusCode := code },
    Copy := fun _ => (0, none),
    startTime := { ext := 1000 },
    endTime := { ext := 5002000 } }

/-- The error of a refused connection. -/
def refusedW : GoError :=
  .urlError "Get" "https://replay.test/a/b?x=1#frag"
    (.errorString "dial tcp 192.0.2.1:443: connect: connection refused")

/-- An environment whose transport fails. -/
def envRefused : Env :=
  { Do := fun _ => .error refusedW,
    Copy := fun _ => (0, none),
    startTime := { ext := 1000 },
    endTime := { ext := 5002000 } }

/-- The initial state: all counters zero, empty trace. -/
def w0 : World := { stats := { success := 0, failure := 0, latencySinceEpochMs := 0 }, trace := [] }

/-- The example line with an empty method. -/
def lineNoMethod : logLine :=
  { url := "http://origin.example/a/b?x=1#frag", method := "",
    userAgent := "curl/8.0", ipclient := "203.0.113.7" }

/-- An environment like `envStatus` whose body drain fails after 10 bytes. -/
def envDrainFails (status : String) (code : Int) : Env :=
  { Do := fun _ => .ok { Status := status, StatusCode := code },
    Copy := fun _ => (10, some (.errorString "unexpected EOF")),
    startTime := { ext := 1000 },
    endTime := { ext := 5002000 } }

/-- A log line whose URL has a scheme but no slash after it, so that it parses as an
opaque URL. -/
def lineOpaque : logLine :=
  { url := "http:foo", method := "GET", userAgent := "curl/8.0", ipclient := "203.0.113.7" }

/-- What `url.Parse` returns for the URL of `lineOpaque`. -/
def parsedOpaque : URL := { Scheme := "http", Opaque := "foo" }

/-- What `http.NewRequest` returns for `lineOpaque` rewritten onto `targetW`. -/
def requestOpaque : Request :=
  { Method := "GET", URL := { Scheme := "https", Opaque := "foo" },
    Proto := "HTTP/1.1", ProtoMajor := 1, ProtoMinor := 1, Header := [], Body := none,
    Host := "" }

/-- A log line whose URL is a relative path without a leading slash. -/
def lineRelative : logLine :=
  { url := "a/b", method := "GET", userAgent := "curl/8.0", ipclient := "203.0.113.7" }

/-- What `url.Parse` returns for the URL of `lineRelative`. -/
def parsedRelative : URL := { Path := "a/b" }

/-- What `http.NewRequest` returns for `lineRelative` rewritten onto `targetW`. -/
def requestRelative : Request :=
  { Method := "GET", URL := { Scheme := "https", Host := "replay.test", Path := "/a/b" },
    Proto := "HTTP/1.1", ProtoMajor := 1, ProtoMinor := 1, Header := [], Body := none,
    Host := "replay.test" }

/-- An environment whose transport rejects a request without a host. -/
def envNoHost : Env :=
  { Do := fun _ => .error (.urlError "Get" "https:foo"
      (.errorString "http: no Host in request URL")),
    Copy := fun _ => (0, none),
    startTime := { ext := 1000 },
    endTime := { ext := 5002000 } }

/-- A log line whose path holds a space, a byte that is not a valid encoding of itself. -/
def lineSpace : logLine :=
  { url := "http://origin.example/a b", method := "GET", userAgent := "curl/8.0",
    ipclient := "203.0.113.7" }

/-- What `url.Parse` returns for the URL of `lineSpace`. -/
def parsedSpace : URL :=
  { Scheme := "http", Host := "origin.example", Path := "/a b", RawPath := "/a b" }

/-- What `http.NewRequest` returns for `lineSpace` rewritten onto `targetW`. -/
def requestSpace : Request :=
  { Method := "GET", URL := { Scheme := "https", Host := "replay.test", Path := "/a b" },
    Proto := "HTTP/1.1", ProtoMajor := 1, ProtoMinor := 1, Header := [], Body := none,
    Host := "replay.test" }

/-- A log line whose path is written with escapes that are not the default ones. -/
def lineEscaped : logLine :=
  { url := "http://origin.example/a%2Fb/%2e%2e/x", method := "GET", userAgent := "curl/8.0",
    ipclient := "203.0.113.7" }

/-- What `url.Parse` returns for the URL of `lineEscaped`. -/
def parsedEscaped : URL :=
  { Scheme := "http", Host := "origin.example", Path := "/a/b/../x",
    RawPath := "/a%2Fb/%2e%2e/x" }

/-- What `http.NewRequest` returns for `lineEscaped` rewritten onto `targetW`. -/
def requestEscaped : Request :=
  { Method := "GET",
    URL := { Scheme := "https", Host := "replay.test", Path := "/a/b/../x",
             RawPath := "/a%2Fb/%2e%2e/x" },
    Proto := "HTTP/1.1", ProtoMajor := 1, ProtoMinor := 1, Header := [], Body := none,
    Host := "replay.test" }

/-- The target `https://replay.test:` with an empty port. -/
def targetColon : URL := { Scheme := "https", Host := "replay.test:" }

/-- A target whose scheme is written in upper case. -/
def targetUpper : URL := { Scheme := "HTTPS", Host := "replay.test" }

/-- A target whose scheme holds a slash. -/
def targetSlash : URL := { Scheme := "a/b", Host := "replay.test" }

/-- What `http.NewRequest` returns for `lineW` rewritten onto `targetSlash`. -/
def requestSlash : Request :=
  { Method := "GET",
    URL := { Path := "a/b://replay.test/a/b", RawQuery := "x=1", Fragment := "frag" },
    Proto := "HTTP/1.1", ProtoMajor := 1, ProtoMinor := 1, Header := [], Body := none,
    Host := "" }

/-- The target `h2c://replay.test`. -/
def targetH2c : URL := { Scheme := "h2c", Host := "replay.test" }

/-- What `http.NewRequest` returns for `lineW` rewritten onto `targetH2c`. -/
def requestH2c : Request :=
  { Method := "GET",
    URL := { Scheme := "h2c", Host := "replay.test", Path := "/a/b", RawQuery := "x=1",
             Fragment := "frag" },
    Proto := "HTTP/1.1", ProtoMajor := 1, ProtoMinor := 1, Header := [], Body := none,
    Host := "replay.test" }

/-- The empty target: no scheme, no host. -/
def targetEmpty : URL := { }

/-- What `http.NewRequest` returns for `lineW` rewritten onto `targetEmpty`. -/
def requestEmptyTarget : Request :=
  { Method := "GET", URL := { Path := "/a/b", RawQuery := "x=1", Fragment := "frag" },
    Proto := "HTTP/1.1", ProtoMajor := 1, ProtoMinor := 1, Header := [], Body := none,
    Host := "" }

/-- A log line whose path begins with two slashes. -/
def lineDouble : logLine :=
  { url := "http://origin.example//x", method := "GET", userAgent := "curl/8.0",
    ipclient := "203.0.113.7" }

/-- What `url.Parse` returns for the URL of `lineDouble`. -/
def parsedDouble : URL := { Scheme := "http", Host := "origin.example", Path := "//x" }

/-- What `http.NewRequest` returns for `lineDouble` rewritten onto `targetEmpty`. -/
def requestDouble : Request :=
  { Method := "GET", URL := { Host := "x" },
    Proto := "HTTP/1.1", ProtoMajor := 1, ProtoMinor := 1, Header := [], Body := none,
    Host := "x" }

/-- A log line whose URL ends in a question mark with an empty query. -/
def lineForce : logLine :=
  { url := "http://origin.example/a?", method := "GET", userAgent := "curl/8.0",
    ipclient := "203.0.113.7" }

/-- What `url.Parse` returns for the URL of `lineForce`. -/
def parsedForce : URL :=
  { Scheme := "http", Host := "origin.example", Path := "/a", ForceQuery := true }

/-- What `http.NewRequest` returns for `lineForce` rewritten onto `targetW`. -/
def requestForce : Request :=
  { Method := "GET",
    URL := { Scheme := "https", Host := "replay.test", Path := "/a", ForceQuery := true },
    Proto := "HTTP/1.1", ProtoMajor := 1, ProtoMinor := 1, Header := [], Body := none,
    Host := "replay.test" }

/-! ## Auxiliary definitions for the URL round trip -/

/-- Whether every character of the list stands for a byte. -/
def isBytes (l : List Char) : Prop := ∀ c ∈ l, c.toNat < 256

instance (l : List Char) : Decidable (isBytes l) :=
  inferInstanceAs (Decidable (∀ c ∈ l, c.toNat < 256))

/-- Whether the byte is an ASCII letter. -/
def isLetter (c : Char) : Bool :=
  ('a' ≤ c ∧ c ≤ 'z') ∨ ('A' ≤ c ∧ c ≤ 'Z')

/-- Whether the byte may follow the first letter of a scheme: a letter, a digit, `+`,
`-` or `.`. -/
def isSchemeByte (c : Char) : Bool :=
  isLetter c || decide (('0' ≤ c ∧ c ≤ '9') ∨ c = '+' ∨ c = '-' ∨ c = '.')

/-- A scheme as `getScheme` reads one: a letter followed by letters, digits, `+`, `-`
and `.` (such as `http`, `https`, `h2c`, `HTTPS`). -/
def validScheme (s : String) : Bool :=
  match s.data with
  | [] => false
  | c :: r => isLetter c && r.all isSchemeByte

/-- The user information as `String()` writes it: the escaped user and password followed
by `@`, or nothing. -/
def userPart (u : URL) : List Char :=
  match u.User with
  | some ui => ui.String ++ ['@']
  | none => []

/-- The query as `String()` writes it: `?` and the raw query, or nothing. -/
def queryPart (u : URL) : List Char :=
  if u.ForceQuery ∨ u.RawQuery ≠ "" then '?' :: u.RawQuery.data else []

/-- The fragment as `String()` writes it: `#` and the escaped fragment, or nothing. -/
def fragPart (u : URL) : List Char :=
  if u.Fragment ≠ "" then '#' :: u.EscapedFragment else []

/-- Whether `String()` writes the two slashes of an authority for the URL `u` rewritten
onto `target`: the host is not empty, or there is user information, or the scheme is not
empty and the URL neither omits its host nor has an empty path. -/
def writesAuthority (target u : URL) : Bool :=
  decide (target.Host ≠ "") || u.User.isSome ||
    (decide (target.Scheme ≠ "") && !u.OmitHost && decide (u.Path ≠ ""))

/-- The scheme as `String()` writes it: the scheme and a colon, or nothing. -/
def schemePart (target : URL) : List Char :=
  if target.Scheme ≠ "" then target.Scheme.data ++ [':'] else []

/-- The authority as `String()` writes it: two slashes, the user information and the
escaped host, or nothing. -/
def authorityPart (target u : URL) : List Char :=
  if writesAuthority target u then
    '/' :: '/' :: (userPart u ++ escape target.Host.data encodeHost)
  else []

/-! ## Path lemmas -/

theorem sendRequest_parse_error (env : Env) (target : URL) (line : logLine) (w : World)
    (e : GoError) (hp : urlParse line.url = .error e) :
    sendRequest env target line w =
      (some (Wrapf e ("error parsing URL " ++ line.url)),
       { stats := fail w.stats, trace := w.trace ++ earlyFailureEvents }) := by
  simp [sendRequest, hp, World.fail, World.emit, earlyFailureEvents]

theorem sendRequest_build_error (env : Env) (target : URL) (line : logLine) (w : World)
    (u : URL) (e : GoError) (hp : urlParse line.url = .ok u)
    (hr : NewRequest line.method (rewriteURL target u).String none = .error e) :
    sendRequest env target line w =
      (some (Wrap e "error creating request"),
       { stats := fail w.stats, trace := w.trace ++ earlyFailureEvents }) := by
  simp [sendRequest, hp, hr, World.fail, World.emit, earlyFailureEvents]

theorem sendRequest_transport_error (env : Env) (target : URL) (line : logLine) (w : World)
    (u : URL) (request : Request) (e : GoError) (hp : urlParse line.url = .ok u)
    (hr : NewRequest line.method (rewriteURL target u).String none = .ok request)
    (hd : env.Do (setHeaders target line request) = .error e) :
    sendRequest env target line w =
      (some (Wrapf e ("error sending request for " ++ (rewriteURL target u).String)),
       { stats := fail w.stats,
         trace := w.trace ++ sendEvents env (setHeaders target line request) ++ [.fail] }) := by
  simp [sendRequest, hp, hr, hd, World.fail, World.emit, sendEvents]

theorem sendRequest_response (env : Env) (target : URL) (line : logLine) (w : World)
    (u : URL) (request : Request) (res : Response) (hp : urlParse line.url = .ok u)
    (hr : NewRequest line.method (rewriteURL target u).String none = .ok request)
    (hd : env.Do (setHeaders target line request) = .ok res) :
    sendRequest env target line w =
      (none,
       { stats := addLatency (recordOutcome res.StatusCode w.stats)
                    (elapsedMs env.startTime env.endTime),
         trace := w.trace ++ sendEvents env (setHeaders target line request)
                    ++ responseEvents env res }) := by
  by_cases hc : res.StatusCode ≥ 200 ∧ res.StatusCode < 400
  · simp [sendRequest, hp, hr, hd, World.fail, World.success, World.emit, World.addLatency,
      sendEvents, responseEvents, outcomeEvent, recordOutcome, hc]
  · simp [sendRequest, hp, hr, hd, World.fail, World.success, World.emit, World.addLatency,
      sendEvents, responseEvents, outcomeEvent, recordOutcome, hc]

/-- Every call takes exactly one of the four ways. -/
theorem sendRequest_cases (env : Env) (target : URL) (line : logLine) :
    (∃ e, urlParse line.url = .error e) ∨
    (∃ u e, urlParse line.url = .ok u ∧
      NewRequest line.method (rewriteURL target u).String none = .error e) ∨
    (∃ u request e, urlParse line.url = .ok u ∧
      NewRequest line.method (rewriteURL target u).String none = .ok request ∧
      env.Do (setHeaders target line request) = .error e) ∨
    (∃ u request res, urlParse line.url = .ok u ∧
      NewRequest line.method (rewriteURL target u).String none = .ok request ∧
      env.Do (setHeaders target line request) = .ok res) := by
  cases hp : urlParse line.url with
  | error e => exact Or.inl ⟨e, rfl⟩
  | ok u =>
    cases hr : NewRequest line.method (rewriteURL target u).String none with
    | error e => exact Or.inr (Or.inl ⟨u, e, rfl, hr⟩)
    | ok request =>
      cases hd : env.Do (setHeaders target line request) with
      | error e => exact Or.inr (Or.inr (Or.inl ⟨u, request, e, rfl, hr, hd⟩))
      | ok res => exact Or.inr (Or.inr (Or.inr ⟨u, request, res, rfl, hr, hd⟩))

/-- The outcome update changes exactly one of the two outcome counters, by one, and
leaves the latency counter alone. -/
theorem recordOutcome_eq (code : Int) (s : Stats) :
    (200 ≤ code ∧ code < 400 ∧ recordOutcome code s = success s) ∨
    (¬ (200 ≤ code ∧ code < 400) ∧ recordOutcome code s = fail s) := by
  by_cases hc : code ≥ 200 ∧ code < 400
  · exact Or.inl ⟨hc.1, hc.2, by simp [recordOutcome, hc]⟩
  · exact Or.inr ⟨hc, by simp [recordOutcome, hc]⟩

/-- The outcome event is one call of `success()` or `fail()`. -/
theorem outcomeEvent_eq (code : Int) :
    (200 ≤ code ∧ code < 400 ∧ outcomeEvent code = .success) ∨
    (¬ (200 ≤ code ∧ code < 400) ∧ outcomeEvent code = .fail) := by
  by_cases hc : code ≥ 200 ∧ code < 400
  · exact Or.inl ⟨hc.1, hc.2, by simp [outcomeEvent, hc]⟩
  · exact Or.inr ⟨hc, by simp [outcomeEvent, hc]⟩

/-- Counting outcome calls over an appended trace. -/
theorem outcomeCalls_append (a b : List Event) :
    outcomeCalls (a ++ b) = outcomeCalls a + outcomeCalls b := by
  simp [outcomeCalls, List.countP_append]

/-- One call changes the sum of the two outcome counters by one. -/
theorem sendRequest_sum (env : Env) (target : URL) (line : logLine) (w : World) :
    (sendRequest env target line w).2.stats.success
      + (sendRequest env target line w).2.stats.failure
      = w.stats.success + w.stats.failure + 1 := by
  rcases sendRequest_cases env target line with ⟨e, hp⟩ | ⟨u, e, hp, hr⟩ |
    ⟨u, request, e, hp, hr, hd⟩ | ⟨u, request, res, hp, hr, hd⟩
  · rw [sendRequest_parse_error env target line w e hp]; simp [fail]; omega
  · rw [sendRequest_build_error env target line w u e hp hr]; simp [fail]; omega
  · rw [sendRequest_transport_error env target line w u request e hp hr hd]; simp [fail]; omega
  · rw [sendRequest_response env target line w u request res hp hr hd]
    rcases recordOutcome_eq res.StatusCode w.stats with ⟨_, _, h⟩ | ⟨_, h⟩
    · simp [h, addLatency, success]; omega
    · simp [h, addLatency, fail]; omega

/-- The URL of `lineW` parses to `parsedW`. -/
theorem parsedW_eq : urlParse lineW.url = .ok parsedW := by rfl

/-- The request built for `lineW` and `targetW` is `requestW`. -/
theorem requestW_eq :
    NewRequest lineW.method (rewriteURL targetW parsedW).String none = .ok requestW := by rfl

/-- The URL of `lineBad` does not parse. -/
theorem parseErrW_eq : urlParse lineBad.url = .error parseErrW := by rfl

/-- What `http.NewRequest` fills in when it succeeds. -/
theorem NewRequest_ok (method url : String) (body : Option String) (request : Request)
    (h : NewRequest method url body = .ok request) :
    request.Method = (if method = "" then "GET" else method) ∧
    request.Body = body ∧ request.Header = [] ∧
    ∃ u2, urlParse url = .ok u2 ∧
      request.URL = { u2 with Host := removeEmptyPort u2.Host } ∧
      request.Host = removeEmptyPort u2.Host := by
  unfold NewRequest at h
  cases hu : urlParse url with
  | error err =>
    rw [hu] at h
    by_cases hv : validMethod (if method = "" then "GET" else method) <;> simp [hv] at h
  | ok u2 =>
    rw [hu] at h
    by_cases hv : validMethod (if method = "" then "GET" else method)
    · simp only [hv, Bool.not_true, Bool.false_eq_true, if_false] at h
      injection h with h
      subst h
      exact ⟨rfl, rfl, rfl, u2, rfl, rfl, rfl⟩
    · simp [hv] at h

/-- The four header keys are in canonical form. -/
theorem canonical_keys :
    CanonicalMIMEHeaderKey "User-Agent" = "User-Agent" ∧
    CanonicalMIMEHeaderKey "Accept-Language" = "Accept-Language" ∧
    CanonicalMIMEHeaderKey "Host" = "Host" ∧
    CanonicalMIMEHeaderKey "X-Forwarded-For" = "X-Forwarded-For" := by
  refine ⟨by rfl, by rfl, by rfl, by rfl⟩

/-- With a monotonic clock inside the int64 range, the amount added to the latency
counter is the elapsed nanoseconds divided by 1,000,000, rounded down. -/
theorem elapsedMs_eq (s e : Time) (h0 : 0 ≤ s.ext) (h1 : s.ext ≤ e.ext)
    (h2 : e.ext < 2 ^ 63) :
    elapsedMs s e = ((e.ext - s.ext) / 1000000).toNat := by
  have hd : toInt64 (e.ext - s.ext) = e.ext - s.ext := by
    unfold toInt64
    norm_num at h2 ⊢
    omega
  have hsub : e.Sub s = e.ext - s.ext := by
    have a1 : ¬ (e.ext - s.ext < 0 ∧ e.ext > s.ext) := by omega
    have a2 : ¬ (e.ext - s.ext > 0 ∧ e.ext < s.ext) := by omega
    simp only [Time.Sub, hd]
    rw [if_neg a1, if_neg a2]
  unfold elapsedMs toUint64 Millisecond
  rw [hsub, Int.tdiv_eq_ediv (by omega) (by norm_num)]
  congr 1
  norm_num at h2 ⊢
  omega


/-! ## Round trip of a rewritten URL through `String` and `Parse` -/

theorem cutByte_not_mem (sep : Char) (a : List Char) (h : sep ∉ a) :
    cutByte sep a = (a, [], false) := by
  induction a with
  | nil => rfl
  | cons c a ih =>
    have hc : c ≠ sep := fun e => h (by simp [e])
    have ha : sep ∉ a := fun e => h (by simp [e])
    simp [cutByte, hc, ih ha]

theorem cutByte_append (sep : Char) (a b : List Char) (h : sep ∉ a) :
    cutByte sep (a ++ sep :: b) = (a, b, true) := by
  induction a with
  | nil => simp [cutByte]
  | cons c a ih =>
    have hc : c ≠ sep := fun e => h (by simp [e])
    have ha : sep ∉ a := fun e => h (by simp [e])
    simp [cutByte, hc, ih ha]

theorem cutByte_fst_mem (sep : Char) (l : List Char) :
    ∀ c ∈ (cutByte sep l).1, c ∈ l := by
  induction l with
  | nil => simp [cutByte]
  | cons d l ih =>
    intro c hc
    by_cases hd : d = sep
    · simp [cutByte, hd] at hc
    · simp only [cutByte, hd, if_false, List.mem_cons] at hc
      rcases hc with rfl | hc
      · simp
      · exact List.mem_cons_of_mem _ (ih c hc)

theorem cutByte_snd_mem (sep : Char) (l : List Char) :
    ∀ c ∈ (cutByte sep l).2.1, c ∈ l := by
  induction l with
  | nil => simp [cutByte]
  | cons d l ih =>
    intro c hc
    by_cases hd : d = sep
    · simp only [cutByte, hd, if_true] at hc
      exact List.mem_cons_of_mem _ hc
    · simp only [cutByte, hd, if_false] at hc
      exact List.mem_cons_of_mem _ (ih c hc)

theorem cutByte_fst_not_mem (sep : Char) (l : List Char) : sep ∉ (cutByte sep l).1 := by
  induction l with
  | nil => simp [cutByte]
  | cons d l ih =>
    by_cases hd : d = sep
    · simp [cutByte, hd]
    · simp only [cutByte, hd, if_false, List.mem_cons, not_or]
      exact ⟨fun e => hd e.symm, ih⟩

theorem lastIndexByte_not_mem (sep : Char) (a : List Char) (h : sep ∉ a) :
    lastIndexByte sep a = none := by
  induction a with
  | nil => rfl
  | cons c a ih =>
    have hc : c ≠ sep := fun e => h (by simp [e])
    have ha : sep ∉ a := fun e => h (by simp [e])
    simp [lastIndexByte, hc, ih ha]

theorem lastIndexByte_append (sep : Char) (a b : List Char) (h : sep ∉ b) :
    lastIndexByte sep (a ++ sep :: b) = some a.length := by
  induction a with
  | nil => simp [lastIndexByte, lastIndexByte_not_mem sep b h]
  | cons c a ih => simp [lastIndexByte, ih]

theorem str_ne_empty (s : String) : s ≠ "" ↔ s.data ≠ [] := by
  cases s with
  | mk l => simp [String.ext_iff]

theorem str_eq_empty (s : String) : s = "" ↔ s.data = [] := by
  cases s with
  | mk l => simp [String.ext_iff]

theorem upperhexDigit_ishex (n : Nat) : ishex (upperhexDigit n) = true := by
  have h : n % 16 < 16 := Nat.mod_lt _ (by decide)
  unfold upperhexDigit
  generalize n % 16 = k at h
  interval_cases k <;> decide

theorem unhex_upperhexDigit (n : Nat) : unhex (upperhexDigit n) = n % 16 := by
  have h : n % 16 < 16 := Nat.mod_lt _ (by decide)
  unfold upperhexDigit
  generalize n % 16 = k at h
  interval_cases k <;> decide

theorem unhex_upperhex (n : Nat) (h : n < 256) :
    unhex (upperhexDigit (n / 16)) * 16 + unhex (upperhexDigit n) = n := by
  rw [unhex_upperhexDigit, unhex_upperhexDigit]
  omega

theorem upperhexDigit_ne_percent (n : Nat) : upperhexDigit n ≠ '%' := by
  have h : n % 16 < 16 := Nat.mod_lt _ (by decide)
  unfold upperhexDigit
  generalize n % 16 = k at h
  interval_cases k <;> decide

theorem shouldEscape_percent (mode : encoding) : shouldEscape '%' mode = true := by
  cases mode <;> decide

theorem escape_cons (c : Char) (p : List Char) (mode : encoding) :
    escape (c :: p) mode =
      (if c = ' ' ∧ mode = encodeQueryComponent then ['+']
       else if shouldEscape c mode then
         ['%', upperhexDigit (c.toNat / 16), upperhexDigit c.toNat]
       else [c]) ++ escape p mode := by
  simp [escape]

theorem unescapeBuild_percent (mode : encoding) (a b : Char) (rest : List Char) :
    unescapeBuild mode ('%' :: a :: b :: rest)
      = Char.ofNat (unhex a * 16 + unhex b) :: unescapeBuild mode rest := by
  rw [unescapeBuild]

theorem unescapeBuild_cons_ne (mode : encoding) (c : Char) (rest : List Char)
    (hne : c ≠ '%') :
    unescapeBuild mode (c :: rest)
      = (if c = '+' ∧ mode = encodeQueryComponent then ' ' else c)
          :: unescapeBuild mode rest := by
  rw [unescapeBuild.eq_def]
  split
  · rename_i he
    cases he
  · rename_i a b r he
    injection he with h1 _
    exact absurd h1 hne
  · rename_i c2 r2 _ he
    injection he with h1 h2
    subst h1 h2
    rfl

theorem unescapeBuild_escape (mode : encoding) (hm : mode ≠ encodeQueryComponent)
    (p : List Char) (hb : isBytes p) : unescapeBuild mode (escape p mode) = p := by
  induction p with
  | nil => rfl
  | cons c p ih =>
    have hc : c.toNat < 256 := hb c (by simp)
    have hp : isBytes p := fun d hd => hb d (by simp [hd])
    have ih := ih hp
    rw [escape_cons]
    simp only [hm, and_false, if_false]
    by_cases hs : shouldEscape c mode = true
    · simp only [hs, if_true, List.cons_append, List.nil_append]
      rw [unescapeBuild_percent, ih, unhex_upperhex c.toNat hc]
      simp
    · have hne : c ≠ '%' := by
        intro e
        rw [e] at hs
        exact hs (shouldEscape_percent mode)
      simp only [hs, Bool.false_eq_true, if_false, List.cons_append, List.nil_append]
      rw [unescapeBuild_cons_ne mode c _ hne, ih]
      simp [hm]


theorem unescapeBuild_id (mode : encoding) (hm : mode ≠ encodeQueryComponent)
    (l : List Char) (h : '%' ∉ l) : unescapeBuild mode l = l := by
  induction l with
  | nil => rfl
  | cons c l ih =>
    have hc : c ≠ '%' := fun e => h (by simp [e])
    have hl : '%' ∉ l := fun e => h (by simp [e])
    rw [unescapeBuild_cons_ne mode c l hc, ih hl]
    simp [hm]

theorem escape_plain (mode : encoding) (hm : mode ≠ encodeQueryComponent) (l : List Char)
    (h : ∀ c ∈ l, shouldEscape c mode = false) : escape l mode = l := by
  induction l with
  | nil => rfl
  | cons c l ih =>
    rw [escape_cons, ih (fun d hd => h d (by simp [hd]))]
    simp [hm, h c (by simp)]

/-- Every byte that `escape` writes is a percent sign, a hexadecimal digit, or a byte of
the input that needs no escaping (or the plus sign that stands for a space in a query
component). -/
theorem escape_all (good : Char → Prop) (mode : encoding) (l : List Char)
    (hplus : good '+') (hpct : good '%') (hhex : ∀ n, good (upperhexDigit n))
    (hok : ∀ c, shouldEscape c mode = false → good c) :
    ∀ c ∈ escape l mode, good c := by
  induction l with
  | nil => simp [escape]
  | cons d l ih =>
    intro c hc
    rw [escape_cons, List.mem_append] at hc
    rcases hc with hc | hc
    · by_cases h1 : d = ' ' ∧ mode = encodeQueryComponent
      · simp only [h1, and_self, if_true, List.mem_singleton] at hc
        rw [hc]; exact hplus
      · by_cases h2 : shouldEscape d mode = true
        · simp only [h1, if_false, h2, if_true, List.mem_cons, List.mem_singleton,
            List.not_mem_nil, or_false] at hc
          rcases hc with rfl | rfl | rfl
          · exact hpct
          · exact hhex _
          · exact hhex _
        · simp only [h1, if_false, h2, Bool.false_eq_true, List.mem_singleton] at hc
          rw [hc]
          exact hok d (by simpa using h2)
    · exact ih c hc

theorem upperhexDigit_cases (n : Nat) :
    upperhexDigit n ∈ "0123456789ABCDEF".data := by
  have h : n % 16 < 16 := Nat.mod_lt _ (by decide)
  unfold upperhexDigit
  generalize n % 16 = k at h
  interval_cases k <;> decide

/-- A byte that `escape` never writes: it is not the plus or percent sign, not a
hexadecimal digit, and it must be escaped in the given mode. -/
theorem escape_not_mem (x : Char) (mode : encoding) (l : List Char)
    (hplus : x ≠ '+') (hpct : x ≠ '%') (hhex : x ∉ "0123456789ABCDEF".data)
    (hesc : shouldEscape x mode = true) : x ∉ escape l mode := by
  intro hx
  refine escape_all (fun c => c ≠ x) mode l (Ne.symm hplus) (Ne.symm hpct) ?_ ?_ x hx rfl
  · intro n e
    exact hhex (e ▸ upperhexDigit_cases n)
  · intro c hc e
    rw [e, hesc] at hc
    cases hc

theorem rawOrDefault (raw path dflt : List Char) (mode : encoding) (rawNe : Prop)
    [Decidable rawNe] :
    ((if rawNe ∧ validEncoded raw mode = true then
        (match unescape raw mode with
          | .ok p => if p = path then raw else dflt
          | .error _ => dflt)
      else dflt) = raw ∧ validEncoded raw mode = true ∧ rawNe ∧
        unescape raw mode = .ok path) ∨
    ((if rawNe ∧ validEncoded raw mode = true then
        (match unescape raw mode with
          | .ok p => if p = path then raw else dflt
          | .error _ => dflt)
      else dflt) = dflt) := by
  by_cases hc : rawNe ∧ validEncoded raw mode = true
  · cases hu : unescape raw mode with
    | error e => right; simp [hc]
    | ok p =>
      by_cases hp : p = path
      · left; subst hp; simp [hc]
      · right; simp [hc, hp]
  · right; simp [hc]

theorem EscapedPath_cases (u : URL) :
    (u.EscapedPath = u.RawPath.data ∧ validEncoded u.RawPath.data encodePath = true ∧
      u.RawPath ≠ "" ∧ unescape u.RawPath.data encodePath = .ok u.Path.data) ∨
    (u.EscapedPath = ['*'] ∧ u.Path = "*") ∨
    (u.EscapedPath = escape u.Path.data encodePath) := by
  unfold URL.EscapedPath
  rcases rawOrDefault u.RawPath.data u.Path.data
    (if u.Path = "*" then ['*'] else escape u.Path.data encodePath) encodePath
    (u.RawPath ≠ "") with h | h
  · exact Or.inl h
  · right
    by_cases hstar : u.Path = "*"
    · left
      rw [if_pos hstar] at h
      exact ⟨by simpa [hstar] using h, hstar⟩
    · right
      rw [if_neg hstar] at h
      simpa [hstar] using h

theorem EscapedFragment_cases (u : URL) :
    (u.EscapedFragment = u.RawFragment.data ∧
      validEncoded u.RawFragment.data encodeFragment = true ∧
      u.RawFragment ≠ "" ∧ unescape u.RawFragment.data encodeFragment = .ok u.Fragment.data) ∨
    (u.EscapedFragment = escape u.Fragment.data encodeFragment) := by
  unfold URL.EscapedFragment
  exact rawOrDefault u.RawFragment.data u.Fragment.data
    (escape u.Fragment.data encodeFragment) encodeFragment (u.RawFragment ≠ "")
theorem unescape_ok (l p : List Char) (mode : encoding) (h : unescape l mode = .ok p) :
    p = unescapeBuild mode l := by
  unfold unescape at h
  cases hc : unescapeCheck mode l with
  | some e => rw [hc] at h; cases h
  | none => rw [hc] at h; injection h with h; exact h.symm

theorem escapedPath_unescape (u : URL) (hb : isBytes u.Path.data) :
    unescapeBuild encodePath u.EscapedPath = u.Path.data := by
  rcases EscapedPath_cases u with ⟨h, _, _, hu⟩ | ⟨h, hs⟩ | h
  · rw [h]; exact (unescape_ok _ _ _ hu).symm
  · rw [h, hs]; rfl
  · rw [h]; exact unescapeBuild_escape encodePath (by decide) _ hb

theorem escapedFragment_unescape (u : URL) (hb : isBytes u.Fragment.data) :
    unescapeBuild encodeFragment u.EscapedFragment = u.Fragment.data := by
  rcases EscapedFragment_cases u with ⟨h, _, _, hu⟩ | h
  · rw [h]; exact (unescape_ok _ _ _ hu).symm
  · rw [h]; exact unescapeBuild_escape encodeFragment (by decide) _ hb

theorem escapedFragment_ne_nil (u : URL) (hf : u.Fragment ≠ "") : u.EscapedFragment ≠ [] := by
  rcases EscapedFragment_cases u with ⟨h, _, hr, _⟩ | h
  · rw [h]; exact (str_ne_empty _).1 hr
  · rw [h]
    have hd := (str_ne_empty _).1 hf
    cases hl : u.Fragment.data with
    | nil => exact absurd hl hd
    | cons c l =>
      rw [escape_cons]
      intro e
      have := congrArg List.length e
      simp only [List.length_append, List.length_nil] at this
      split at this <;> [skip; split at this] <;> simp at this

theorem validEncoded_path_not_mem (l : List Char) (h : validEncoded l encodePath = true) :
    '#' ∉ l ∧ '?' ∉ l := by
  unfold validEncoded at h
  rw [List.all_eq_true] at h
  constructor
  · intro hm
    have := h _ hm
    revert this
    decide
  · intro hm
    have := h _ hm
    revert this
    decide

theorem escapedPath_not_mem (u : URL) : '#' ∉ u.EscapedPath ∧ '?' ∉ u.EscapedPath := by
  rcases EscapedPath_cases u with ⟨h, hv, _, _⟩ | ⟨h, _⟩ | h
  · rw [h]; exact validEncoded_path_not_mem _ hv
  · rw [h]; decide
  · rw [h]
    exact ⟨escape_not_mem '#' encodePath _ (by decide) (by decide) (by decide) (by decide),
      escape_not_mem '?' encodePath _ (by decide) (by decide) (by decide) (by decide)⟩

theorem userinfoString_not_mem (ui : Userinfo) (x : Char) (hx : x ≠ ':')
    (hplus : x ≠ '+') (hpct : x ≠ '%') (hhex : x ∉ "0123456789ABCDEF".data)
    (hesc : shouldEscape x encodeUserPassword = true) : x ∉ ui.String := by
  unfold Userinfo.String
  intro hm
  rw [List.mem_append] at hm
  rcases hm with hm | hm
  · exact escape_not_mem x encodeUserPassword _ hplus hpct hhex hesc hm
  · split at hm
    · rw [List.mem_cons] at hm
      rcases hm with hm | hm
      · exact hx hm
      · exact escape_not_mem x encodeUserPassword _ hplus hpct hhex hesc hm
    · cases hm

theorem userPart_not_mem (u : URL) :
    '#' ∉ userPart u ∧ '?' ∉ userPart u ∧ '/' ∉ userPart u := by
  unfold userPart
  cases u.User with
  | none => simp
  | some ui =>
    simp only [List.mem_append, List.mem_singleton, not_or]
    exact ⟨⟨userinfoString_not_mem ui '#' (by decide) (by decide) (by decide) (by decide)
        (by decide), by decide⟩,
      ⟨userinfoString_not_mem ui '?' (by decide) (by decide) (by decide) (by decide)
        (by decide), by decide⟩,
      ⟨userinfoString_not_mem ui '/' (by decide) (by decide) (by decide) (by decide)
        (by decide), by decide⟩⟩

theorem rewrite_EscapedPath (target u : URL) :
    (rewriteURL target u).EscapedPath = u.EscapedPath := rfl

theorem rewrite_EscapedFragment (target u : URL) :
    (rewriteURL target u).EscapedFragment = u.EscapedFragment := rfl

theorem hasPrefix_slash (l : List Char) : hasPrefix l ['/'] = (l.head? == some '/') := by
  cases l with
  | nil => rfl
  | cons c l => simp [hasPrefix]

theorem countByte_not_mem (sep : Char) (l : List Char) (h : sep ∉ l) : countByte sep l = 0 := by
  unfold countByte
  rw [List.length_eq_zero, List.filter_eq_nil_iff]
  intro a ha e
  have : a = sep := by simpa using e
  exact h (this ▸ ha)

theorem countByte_pos (sep : Char) (l : List Char) (h : sep ∈ l) : 0 < countByte sep l := by
  unfold countByte
  rw [List.length_pos]
  intro e
  rw [List.filter_eq_nil_iff] at e
  exact e sep h (by simp)

theorem countByte_append (sep : Char) (a b : List Char) :
    countByte sep (a ++ b) = countByte sep a + countByte sep b := by
  simp [countByte]

theorem splitQuery_assembled (sch : String) (u : URL) (R : List Char) (hR : '?' ∉ R) :
    splitQuery { Scheme := sch } (R ++ queryPart u)
      = ({ Scheme := sch, ForceQuery := (u.ForceQuery && decide (u.RawQuery = "")),
           RawQuery := u.RawQuery }, R) := by
  unfold queryPart
  by_cases hq : u.ForceQuery = true ∨ u.RawQuery ≠ ""
  · simp only [hq, if_true]
    by_cases he : u.RawQuery.data = []
    · have he2 : u.RawQuery = "" := (str_eq_empty _).2 he
      have hfq : (u.ForceQuery && decide (u.RawQuery = "")) = true := by
        rcases hq with hq | hq
        · simp [hq, he2]
        · exact absurd he2 hq
      rw [hfq]
      unfold splitQuery
      have hc : (R ++ ['?']).getLast? = some '?' ∧ countByte '?' (R ++ ['?']) = 1 := by
        refine ⟨by simp, ?_⟩
        rw [countByte_append, countByte_not_mem _ _ hR]
        rfl
      rw [he, if_pos hc, he2]
      simp
    · have hfq : (u.ForceQuery && decide (u.RawQuery = "")) = false := by
        have : u.RawQuery ≠ "" := (str_ne_empty _).2 he
        simp [this]
      rw [hfq]
      unfold splitQuery
      have hc : ¬ ((R ++ '?' :: u.RawQuery.data).getLast? = some '?'
          ∧ countByte '?' (R ++ '?' :: u.RawQuery.data) = 1) := by
        rintro ⟨h1, h2⟩
        rw [List.getLast?_eq_some_iff] at h1
        obtain ⟨ys, hys⟩ := h1
        have h3 : countByte '?' (R ++ '?' :: u.RawQuery.data)
            = 1 + countByte '?' u.RawQuery.data := by
          rw [countByte_append, countByte_not_mem _ _ hR]
          simp [countByte]
          omega
        have h4 : '?' ∈ u.RawQuery.data := by
          have hlast : (R ++ '?' :: u.RawQuery.data).getLast? = u.RawQuery.data.getLast? := by
            cases hq2 : u.RawQuery.data with
            | nil => exact absurd hq2 he
            | cons d l =>
              rw [List.getLast?_append, List.getLast?_cons_cons, List.getLast?_cons]
              rfl
          have h5 : (R ++ '?' :: u.RawQuery.data).getLast? = some '?' := by
            rw [hys]; simp
          rw [hlast] at h5
          exact List.mem_of_getLast?_eq_some h5
        have := countByte_pos '?' _ h4
        omega
      rw [if_neg hc, cutByte_append '?' R _ hR]
  · simp only [hq, if_false, List.append_nil]
    have h2 : u.RawQuery = "" := by
      by_contra h
      exact hq (Or.inr h)
    have hfq : (u.ForceQuery && decide (u.RawQuery = "")) = false := by
      have : u.ForceQuery ≠ true := fun h => hq (Or.inl h)
      simp [this]
    rw [hfq]
    unfold splitQuery
    have hc : ¬ (R.getLast? = some '?' ∧ countByte '?' R = 1) := by
      rintro ⟨h1, _⟩
      exact hR (List.mem_of_getLast?_eq_some h1)
    rw [if_neg hc, cutByte_not_mem '?' R hR, h2]
theorem indexOf_head_not_mem (x : Char) (sub l : List Char) (h : x ∉ l) :
    indexOf (x :: sub) l = none := by
  induction l with
  | nil => rfl
  | cons c l ih =>
    have hc : c ≠ x := fun e => h (by simp [e])
    have hl : x ∉ l := fun e => h (by simp [e])
    simp [indexOf, hasPrefix, hc, ih hl]

theorem indexOf_slash_append (A E : List Char) (hA : '/' ∉ A) :
    indexOf ['/'] (A ++ '/' :: E) = some A.length := by
  induction A with
  | nil => simp [indexOf, hasPrefix]
  | cons c A ih =>
    have hc : c ≠ '/' := fun e => hA (by simp [e])
    have hl : '/' ∉ A := fun e => hA (by simp [e])
    simp [indexOf, hasPrefix, hc, ih hl]

theorem splitAuthority_assembled (A E : List Char) (hA : '/' ∉ A)
    (hE : E = [] ∨ E.head? = some '/') : splitAuthority (A ++ E) = (A, E) := by
  unfold splitAuthority
  rcases hE with hE | hE
  · subst hE
    simp [indexOf_head_not_mem '/' [] A hA]
  · cases E with
    | nil => simp at hE
    | cons c E =>
      simp only [List.head?_cons, Option.some.injEq] at hE
      subst hE
      rw [indexOf_slash_append A E hA]
      simp

theorem queryPart_not_mem (u : URL) (hq : '#' ∉ u.RawQuery.data) : '#' ∉ queryPart u := by
  unfold queryPart
  split
  · simp only [List.mem_cons, not_or]
    exact ⟨by decide, hq⟩
  · simp

theorem unhex_lt (c : Char) : unhex c < 16 := by
  unfold unhex
  split
  · rename_i h
    have h1 : 48 ≤ c.toNat := h.1
    have h2 : c.toNat ≤ 57 := h.2
    omega
  · split
    · rename_i h
      have h1 : 97 ≤ c.toNat := h.1
      have h2 : c.toNat ≤ 102 := h.2
      omega
    · split
      · rename_i h
        have h1 : 65 ≤ c.toNat := h.1
        have h2 : c.toNat ≤ 70 := h.2
        omega
      · omega

theorem toNat_ofNat_lt (n : Nat) (h : n < 256) : (Char.ofNat n).toNat = n := by
  have hv : n.isValidChar := Or.inl (by omega)
  rw [Char.ofNat, dif_pos hv]
  rfl

theorem unescapeBuild_bytes (mode : encoding) (n : Nat) :
    ∀ l : List Char, l.length ≤ n → isBytes l → isBytes (unescapeBuild mode l) := by
  induction n with
  | zero =>
    intro l hl _
    have : l = [] := List.length_eq_zero.1 (by omega)
    subst this
    intro c hc
    simp [unescapeBuild] at hc
  | succ n ih =>
    intro l hl hb
    cases l with
    | nil => intro c hc; simp [unescapeBuild] at hc
    | cons d l =>
      by_cases hd : d = '%'
      · subst hd
        have hlb : isBytes l := fun x hx => hb x (by simp [hx])
        cases l with
        | nil => intro c hc; simp [unescapeBuild] at hc; rw [hc]; decide
        | cons a l =>
          cases l with
          | nil =>
            intro c hc
            simp [unescapeBuild] at hc
            rcases hc with rfl | rfl
            · decide
            · split
              · decide
              · exact hlb _ (by simp)
          | cons b l =>
            rw [unescapeBuild_percent]
            intro c hc
            rw [List.mem_cons] at hc
            rcases hc with hc | hc
            · rw [hc, toNat_ofNat_lt]
              · have := unhex_lt a
                have := unhex_lt b
                omega
              · have := unhex_lt a
                have := unhex_lt b
                omega
            · exact ih l (by simp at hl; omega)
                (fun x hx => hb x (by simp [hx])) c hc
      · rw [unescapeBuild_cons_ne mode d l hd]
        intro c hc
        rw [List.mem_cons] at hc
        rcases hc with hc | hc
        · rw [hc]
          split
          · decide
          · exact hb d (by simp)
        · exact ih l (by simp at hl; omega) (fun x hx => hb x (by simp [hx])) c hc
theorem getSchemeLoop_mem (raw : List Char) :
    ∀ (l : List Char) (first : Bool) (acc sch rest : List Char),
      getSchemeLoop raw first acc l = some (sch, rest) → ∀ c ∈ rest, c ∈ raw ∨ c ∈ l := by
  intro l
  induction l with
  | nil =>
    intro first acc sch rest h c hc
    simp only [getSchemeLoop, Option.some.injEq, Prod.mk.injEq] at h
    exact Or.inl (h.2 ▸ hc)
  | cons d l ih =>
    intro first acc sch rest h c hc
    unfold getSchemeLoop at h
    split at h
    · rcases ih _ _ _ _ h c hc with h1 | h1
      · exact Or.inl h1
      · exact Or.inr (List.mem_cons_of_mem _ h1)
    · split at h
      · split at h
        · simp only [Option.some.injEq, Prod.mk.injEq] at h
          exact Or.inl (h.2 ▸ hc)
        · rcases ih _ _ _ _ h c hc with h1 | h1
          · exact Or.inl h1
          · exact Or.inr (List.mem_cons_of_mem _ h1)
      · split at h
        · split at h
          · cases h
          · simp only [Option.some.injEq, Prod.mk.injEq] at h
            exact Or.inr (List.mem_cons_of_mem _ (h.2 ▸ hc))
        · simp only [Option.some.injEq, Prod.mk.injEq] at h
          exact Or.inl (h.2 ▸ hc)

theorem getScheme_mem (l sch rest : List Char) (h : getScheme l = .ok (sch, rest)) :
    ∀ c ∈ rest, c ∈ l := by
  unfold getScheme at h
  cases hg : getSchemeLoop l true [] l with
  | none => rw [hg] at h; cases h
  | some r =>
    rw [hg] at h
    injection h with h
    subst h
    intro c hc
    rcases getSchemeLoop_mem l l true [] sch rest hg c hc with h1 | h1 <;> exact h1

theorem splitQuery_inv (url : URL) (rest0 : List Char) :
    (∀ c ∈ (splitQuery url rest0).2, c ∈ rest0) ∧
    (∀ c ∈ (splitQuery url rest0).1.RawQuery.data, c ∈ url.RawQuery.data ∨ c ∈ rest0) ∧
    (splitQuery url rest0).1.Path = url.Path ∧
    (splitQuery url rest0).1.Fragment = url.Fragment := by
  unfold splitQuery
  split
  · refine ⟨fun c hc => List.mem_of_mem_dropLast hc, fun c hc => Or.inl hc, rfl, rfl⟩
  · refine ⟨fun c hc => cutByte_fst_mem _ _ c hc,
      fun c hc => Or.inr (cutByte_snd_mem _ _ c hc), rfl, rfl⟩

theorem splitAuthority_snd_mem (a : List Char) : ∀ c ∈ (splitAuthority a).2, c ∈ a := by
  unfold splitAuthority
  split
  · intro c hc; exact List.mem_of_mem_drop hc
  · intro c hc; cases hc

theorem setPath_ok (url u2 : URL) (p : List Char) (h : URL.setPath url p = .ok u2) :
    unescape p encodePath = .ok (unescapeBuild encodePath p) ∧
    u2 = { url with
      Path := String.mk (unescapeBuild encodePath p),
      RawPath := if p = escape (unescapeBuild encodePath p) encodePath then ""
        else String.mk p } := by
  unfold URL.setPath at h
  cases hu : unescape p encodePath with
  | error e => rw [hu] at h; cases h
  | ok path =>
    have hpath := unescape_ok _ _ _ hu
    subst hpath
    rw [hu] at h
    simp only at h
    refine ⟨rfl, ?_⟩
    by_cases hc : p = escape (unescapeBuild encodePath p) encodePath
    · rw [if_pos hc] at h
      injection h with h
      rw [if_pos hc, ← h]
    · rw [if_neg hc] at h
      injection h with h
      rw [if_neg hc, ← h]

theorem setFragment_ok (url u2 : URL) (f : List Char) (h : URL.setFragment url f = .ok u2) :
    unescape f encodeFragment = .ok (unescapeBuild encodeFragment f) ∧
    u2 = { url with
      Fragment := String.mk (unescapeBuild encodeFragment f),
      RawFragment := if f = escape (unescapeBuild encodeFragment f) encodeFragment then ""
        else String.mk f } := by
  unfold URL.setFragment at h
  cases hu : unescape f encodeFragment with
  | error e => rw [hu] at h; cases h
  | ok frag =>
    have hfrag := unescape_ok _ _ _ hu
    subst hfrag
    rw [hu] at h
    simp only at h
    refine ⟨rfl, ?_⟩
    by_cases hc : f = escape (unescapeBuild encodeFragment f) encodeFragment
    · rw [if_pos hc] at h
      injection h with h
      rw [if_pos hc, ← h]
    · rw [if_neg hc] at h
      injection h with h
      rw [if_neg hc, ← h]

theorem parseRest_forceQuery (url u : URL) (rest : List Char)
    (h : parseRest url rest = .ok u) :
    u.ForceQuery = url.ForceQuery ∧ u.RawQuery = url.RawQuery := by
  unfold parseRest at h
  split at h
  · injection h with h
    subst h
    exact ⟨rfl, rfl⟩
  · split at h
    · cases h
    · split at h
      · simp only at h
        split at h
        · cases h
        · obtain ⟨_, g⟩ := setPath_ok _ _ _ h
          subst g
          exact ⟨rfl, rfl⟩
      · split at h
        · obtain ⟨_, g⟩ := setPath_ok _ _ _ h
          subst g
          exact ⟨rfl, rfl⟩
        · obtain ⟨_, g⟩ := setPath_ok _ _ _ h
          subst g
          exact ⟨rfl, rfl⟩

theorem splitQuery_forceQuery (url : URL) (rest0 : List Char) (hf : url.ForceQuery = false)
    (hq : url.RawQuery = "") :
    (splitQuery url rest0).1.ForceQuery = true → (splitQuery url rest0).1.RawQuery = "" := by
  unfold splitQuery
  split
  · intro _
    exact hq
  · intro h
    rw [hf] at h
    cases h

theorem parse_forceQuery (l : List Char) (u : URL) (h : parse l = .ok u) :
    u.ForceQuery = true → u.RawQuery = "" := by
  unfold parse at h
  split at h
  · cases h
  · split at h
    · injection h with h
      subst h
      intro hc
      cases hc
    · split at h
      · cases h
      · rename_i sch rest0 hg
        simp only at h
        obtain ⟨p1, p2⟩ := parseRest_forceQuery _ u _ h
        rw [p1, p2]
        exact splitQuery_forceQuery _ rest0 rfl rfl

/-- A URL that `url.Parse` returns with `ForceQuery` set has an empty raw query. -/
theorem urlParse_forceQuery (s : String) (u : URL) (h : urlParse s = .ok u) :
    u.ForceQuery = true → u.RawQuery = "" := by
  unfold urlParse at h
  simp only at h
  cases hp : parse (cutByte '#' s.data).1 with
  | error e => rw [hp] at h; cases h
  | ok url =>
    have hq := parse_forceQuery _ url hp
    rw [hp] at h
    simp only at h
    split at h
    · injection h with h
      subst h
      exact hq
    · cases hsf : url.setFragment (cutByte '#' s.data).2.1 with
      | error e => rw [hsf] at h; cases h
      | ok u3 =>
        rw [hsf] at h
        injection h with h
        subst h
        obtain ⟨_, g⟩ := setFragment_ok _ _ _ hsf
        subst g
        exact hq

theorem escape_nil (mode : encoding) : escape [] mode = [] := rfl

theorem escape_eq_nil (mode : encoding) (l : List Char) (h : escape l mode = []) : l = [] := by
  cases l with
  | nil => rfl
  | cons c l =>
    rw [escape_cons] at h
    have := congrArg List.length h
    simp only [List.length_append, List.length_nil] at this
    split at this <;> [skip; split at this] <;> simp at this

theorem String_rewritten (target u : URL) (ho : u.Opaque = "")
    (hs : u.EscapedPath = [] ∨ u.EscapedPath.head? = some '/') :
    (rewriteURL target u).String = String.mk (schemePart target ++ authorityPart target u
      ++ u.EscapedPath ++ queryPart u ++ fragPart u) := by
  have h4 : ∀ (P : Prop), ¬ (u.EscapedPath ≠ [] ∧ (!hasPrefix u.EscapedPath ['/']) = true
      ∧ P) := by
    rintro P ⟨a, b, _⟩
    rcases hs with hs | hs
    · exact a hs
    · rw [hasPrefix_slash, hs] at b
      simp at b
  have h5 : containsByte ':' (cutByte '/' u.EscapedPath).1 = false := by
    rcases hs with hs | hs
    · rw [hs]; rfl
    · cases hE : u.EscapedPath with
      | nil => rfl
      | cons c l =>
        rw [hE] at hs
        simp only [List.head?_cons, Option.some.injEq] at hs
        subst hs
        rfl
  unfold URL.String
  simp only [rewrite_EscapedPath, rewrite_EscapedFragment]
  simp only [rewriteURL, ho, ne_eq, not_true_eq_false, if_false, h4, h5, Bool.false_eq_true,
    and_false, List.append_nil]
  congr 1
  unfold schemePart authorityPart writesAuthority userPart queryPart fragPart
  by_cases hS : target.Scheme = "" <;> by_cases hH : target.Host = "" <;>
    cases hU : u.User <;> cases hO : u.OmitHost <;> by_cases hP : u.Path = "" <;>
    simp [hS, hH, hU, hO, hP, escape_nil, List.append_assoc]
theorem getSchemeLoop_schemeBytes (raw r : List Char) (R : List Char)
    (hR : ∀ c ∈ R, isSchemeByte c = true) :
    ∀ (acc : List Char),
      getSchemeLoop raw false acc (R ++ ':' :: r) = some (acc.reverse ++ R, r) := by
  induction R with
  | nil =>
    intro acc
    have h1 : ¬ (('a' ≤ ':' ∧ ':' ≤ 'z') ∨ ('A' ≤ ':' ∧ ':' ≤ 'Z')) := by decide
    have h2 : ¬ (('0' ≤ ':' ∧ ':' ≤ '9') ∨ ':' = '+' ∨ ':' = '-' ∨ ':' = '.') := by decide
    simp [getSchemeLoop, h1, h2]
  | cons c R ih =>
    intro acc
    have hc : isSchemeByte c = true := hR c (by simp)
    have ih := ih (fun d hd => hR d (by simp [hd])) (c :: acc)
    simp only [List.cons_append, getSchemeLoop]
    by_cases hl : ('a' ≤ c ∧ c ≤ 'z') ∨ ('A' ≤ c ∧ c ≤ 'Z')
    · rw [if_pos hl]
      show getSchemeLoop raw false (c :: acc) (R ++ ':' :: r) = _
      rw [ih]
      simp
    · have hd : ('0' ≤ c ∧ c ≤ '9') ∨ c = '+' ∨ c = '-' ∨ c = '.' := by
        simpa [isSchemeByte, isLetter, hl] using hc
      rw [if_neg hl, if_pos hd]
      simp only [Bool.false_eq_true, if_false]
      show getSchemeLoop raw false (c :: acc) (R ++ ':' :: r) = _
      rw [ih]
      simp

theorem getScheme_valid (S : String) (r : List Char) (hS : validScheme S = true) :
    getScheme (S.data ++ ':' :: r) = .ok (S.data, r) := by
  unfold validScheme at hS
  cases hd : S.data with
  | nil => rw [hd] at hS; cases hS
  | cons c R =>
    rw [hd] at hS
    simp only [Bool.and_eq_true, List.all_eq_true] at hS
    have hl : ('a' ≤ c ∧ c ≤ 'z') ∨ ('A' ≤ c ∧ c ≤ 'Z') := by
      simpa [isLetter] using hS.1
    unfold getScheme
    simp only [List.cons_append, getSchemeLoop, hl, if_true]
    have := getSchemeLoop_schemeBytes (c :: (R ++ ':' :: r)) r R hS.2 [c]
    simp only [List.cons_append] at this
    show (match getSchemeLoop (c :: (R ++ ':' :: r)) false [c] (R ++ ':' :: r) with
      | none => _ | some r => _) = _
    rw [this]
    simp

theorem getScheme_noScheme (l : List Char)
    (h : l = [] ∨ l.head? = some '/' ∨ l.head? = some '?') : getScheme l = .ok ([], l) := by
  unfold getScheme
  cases l with
  | nil => rfl
  | cons c l =>
    have hc : c = '/' ∨ c = '?' := by
      rcases h with h | h | h
      · cases h
      · left; simpa using h
      · right; simpa using h
    rcases hc with rfl | rfl
    · rfl
    · rfl

theorem validScheme_not_mem (S : String) (hS : validScheme S = true) (x : Char)
    (hx : isSchemeByte x = false) : x ∉ S.data := by
  unfold validScheme at hS
  cases hd : S.data with
  | nil => simp
  | cons c R =>
    rw [hd] at hS
    simp only [Bool.and_eq_true, List.all_eq_true] at hS
    intro hm
    rw [List.mem_cons] at hm
    rcases hm with rfl | hm
    · have : isSchemeByte x = true := by simp [isSchemeByte, hS.1]
      rw [hx] at this
      cases this
    · have := hS.2 x hm
      rw [hx] at this
      cases this

theorem validScheme_ne_empty (S : String) (hS : validScheme S = true) : S ≠ "" := by
  intro e
  rw [e] at hS
  cases hS

theorem toLowerASCII_eq_nil (l : List Char) : toLowerASCII l = [] ↔ l = [] := by
  simp [toLowerASCII]
theorem unescapeCheck_cons_ne (mode : encoding) (c : Char) (rest : List Char)
    (hne : c ≠ '%') (h : unescapeCheck mode (c :: rest) = none) :
    unescapeCheck mode rest = none := by
  rw [unescapeCheck.eq_def] at h
  split at h
  · rename_i he; cases he
  · rename_i r he
    injection he with h1 _
    exact absurd h1 hne
  · rename_i c2 r2 _ he
    injection he with h1 h2
    subst h1 h2
    split at h
    · cases h
    · exact h

theorem unescapeCheck_percent (mode : encoding) (rest : List Char)
    (h : unescapeCheck mode ('%' :: rest) = none) :
    ∃ a b rest2, rest = a :: b :: rest2 ∧ unescapeCheck mode rest2 = none := by
  cases rest with
  | nil => rw [unescapeCheck.eq_def] at h; cases h
  | cons a rest =>
    cases rest with
    | nil => rw [unescapeCheck.eq_def] at h; cases h
    | cons b rest2 =>
      refine ⟨a, b, rest2, rfl, ?_⟩
      rw [unescapeCheck.eq_def] at h
      simp only at h
      split at h
      · cases h
      · split at h
        · cases h
        · split at h
          · cases h
          · exact h

theorem unescapeBuild_append (mode : encoding) (n : Nat) :
    ∀ a b : List Char, a.length ≤ n → unescapeCheck mode a = none →
      unescapeBuild mode (a ++ b) = unescapeBuild mode a ++ unescapeBuild mode b := by
  induction n with
  | zero =>
    intro a b hl _
    have : a = [] := List.length_eq_zero.1 (by omega)
    subst this
    simp [unescapeBuild]
  | succ n ih =>
    intro a b hl hc
    cases a with
    | nil => simp [unescapeBuild]
    | cons d a =>
      by_cases hd : d = '%'
      · subst hd
        obtain ⟨x, y, rest2, hr, hc2⟩ := unescapeCheck_percent mode a hc
        subst hr
        simp only [List.cons_append, unescapeBuild_percent]
        rw [ih rest2 b (by simp at hl; omega) hc2]
      · simp only [List.cons_append]
        rw [unescapeBuild_cons_ne mode d _ hd, unescapeBuild_cons_ne mode d _ hd,
          ih a b (by simp at hl; omega) (unescapeCheck_cons_ne mode d a hd hc)]
        rfl

theorem unescapeBuild_mode (m1 m2 : encoding) (h1 : m1 ≠ encodeQueryComponent)
    (h2 : m2 ≠ encodeQueryComponent) (n : Nat) :
    ∀ l : List Char, l.length ≤ n → unescapeBuild m1 l = unescapeBuild m2 l := by
  induction n with
  | zero =>
    intro l hl
    have : l = [] := List.length_eq_zero.1 (by omega)
    subst this
    simp [unescapeBuild]
  | succ n ih =>
    intro l hl
    cases l with
    | nil => simp [unescapeBuild]
    | cons d l =>
      by_cases hd : d = '%'
      · subst hd
        cases l with
        | nil => simp [unescapeBuild, h1, h2]
        | cons a l =>
          cases l with
          | nil => simp [unescapeBuild, h1, h2]
          | cons b l =>
            rw [unescapeBuild_percent, unescapeBuild_percent,
              ih l (by simp at hl; omega)]
      · rw [unescapeBuild_cons_ne m1 d l hd, unescapeBuild_cons_ne m2 d l hd,
          ih l (by simp at hl; omega)]
        simp [h1, h2]

theorem indexOf_le (sub : List Char) : ∀ (l : List Char) (k : Nat),
    indexOf sub l = some k → k ≤ l.length := by
  intro l
  induction l with
  | nil =>
    intro k h
    unfold indexOf at h
    split at h
    · injection h with h; omega
    · cases h
  | cons c l ih =>
    intro k h
    unfold indexOf at h
    split at h
    · injection h with h; omega
    · cases hi : indexOf sub l with
      | none => rw [hi] at h; cases h
      | some j =>
        rw [hi] at h
        simp only [Option.map_some', Option.some.injEq] at h
        have := ih j hi
        simp only [List.length_cons]
        omega

/-- Parsing the escaped form of a host gives the host back. -/
theorem parseHost_escape (H h : List Char) (hb : isBytes H)
    (hp : parseHost (escape H encodeHost) = .ok h) : h = H := by
  have hbuild : unescapeBuild encodeHost (escape H encodeHost) = H :=
    unescapeBuild_escape encodeHost (by decide) H hb
  have hu : unescape (escape H encodeHost) encodeHost = .ok h → h = H := by
    intro hu
    rw [unescape_ok _ _ _ hu, hbuild]
  generalize hE : escape H encodeHost = EH at hp hu hbuild
  unfold parseHost at hp
  by_cases hbr : hasPrefix EH ['['] = true
  · rw [if_pos hbr] at hp
    cases hl : lastIndexByte ']' EH with
    | none => simp only [hl] at hp; cases hp
    | some i =>
      simp only [hl] at hp
      by_cases hv : (!validOptionalPort (List.drop (i + 1) EH)) = true
      · rw [if_pos hv] at hp; cases hp
      · rw [if_neg hv] at hp
        cases hz : indexOf "%25".data (List.take i EH) with
        | none => simp only [hz] at hp; exact hu hp
        | some zone =>
          simp only [hz] at hp
          cases h1 : unescape (List.take zone EH) encodeHost with
          | error e => simp only [h1] at hp; cases hp
          | ok host1 =>
            simp only [h1] at hp
            cases h2 : unescape (List.drop zone (List.take i EH)) encodeZone with
            | error e => simp only [h2] at hp; cases hp
            | ok host2 =>
              simp only [h2] at hp
              cases h3 : unescape (List.drop i EH) encodeHost with
              | error e => simp only [h3] at hp; cases hp
              | ok host3 =>
                simp only [h3] at hp
                injection hp with hp
                have hzi : zone ≤ i := by
                  have := indexOf_le _ _ _ hz
                  simp only [List.length_take] at this
                  omega
                have c1 : unescapeCheck encodeHost (List.take zone EH) = none := by
                  unfold unescape at h1
                  cases hc : unescapeCheck encodeHost (List.take zone EH) with
                  | none => rfl
                  | some e => rw [hc] at h1; cases h1
                have c2 : unescapeCheck encodeZone (List.drop zone (List.take i EH))
                    = none := by
                  unfold unescape at h2
                  cases hc : unescapeCheck encodeZone (List.drop zone (List.take i EH)) with
                  | none => rfl
                  | some e => rw [hc] at h2; cases h2
                have e1 := unescape_ok _ _ _ h1
                have e2 := unescape_ok _ _ _ h2
                have e3 := unescape_ok _ _ _ h3
                have hsplit : EH = List.take zone EH ++
                    (List.drop zone (List.take i EH) ++ List.drop i EH) := by
                  have t1 : List.take zone EH = List.take zone (List.take i EH) := by
                    rw [List.take_take, Nat.min_eq_left hzi]
                  rw [t1, ← List.append_assoc, List.take_append_drop, List.take_append_drop]
                rw [← hp, e1, e2, e3, ← hbuild]
                conv => rhs; rw [hsplit]
                rw [unescapeBuild_append encodeHost _ _ _ (Nat.le_refl _) c1,
                  unescapeBuild_mode encodeHost encodeZone (by decide) (by decide) _
                    (List.drop zone (List.take i EH) ++ List.drop i EH) (Nat.le_refl _),
                  unescapeBuild_append encodeZone _ _ _ (Nat.le_refl _) c2,
                  unescapeBuild_mode encodeZone encodeHost (by decide) (by decide) _
                    (List.drop i EH) (Nat.le_refl _),
                  List.append_assoc]
  · rw [if_neg hbr] at hp
    cases hl : lastIndexByte ':' EH with
    | none => simp only [hl] at hp; exact hu hp
    | some i =>
      simp only [hl] at hp
      by_cases hv : (!validOptionalPort (List.drop i EH)) = true
      · rw [if_pos hv] at hp; cases hp
      · rw [if_neg hv] at hp; exact hu hp
theorem escapeHost_not_mem (H : List Char) (x : Char) (hplus : x ≠ '+') (hpct : x ≠ '%')
    (hhex : x ∉ "0123456789ABCDEF".data) (hesc : shouldEscape x encodeHost = true) :
    x ∉ escape H encodeHost :=
  escape_not_mem x encodeHost H hplus hpct hhex hesc

theorem parseAuthority_assembled (u : URL) (EH H h : List Char) (usr : Option Userinfo)
    (hph : ∀ h2, parseHost EH = .ok h2 → h2 = H) (hat : '@' ∉ EH)
    (hp : parseAuthority (userPart u ++ EH) = .ok (usr, h)) : h = H := by
  unfold userPart at hp
  cases hU : u.User with
  | none =>
    rw [hU] at hp
    simp only [List.nil_append] at hp
    unfold parseAuthority at hp
    rw [lastIndexByte_not_mem '@' EH hat] at hp
    simp only at hp
    cases hh : parseHost EH with
    | error e => rw [hh] at hp; cases hp
    | ok host =>
      rw [hh] at hp
      injection hp with hp
      injection hp with _ hp
      rw [← hp]
      exact hph host hh
  | some ui =>
    rw [hU] at hp
    simp only [List.append_assoc, List.singleton_append] at hp
    unfold parseAuthority at hp
    rw [lastIndexByte_append '@' ui.String EH hat] at hp
    have hd : List.drop (ui.String.length + 1) (ui.String ++ '@' :: EH) = EH := by
      rw [List.drop_append_eq_append_drop]
      simp
    simp only [hd] at hp
    cases hh : parseHost EH with
    | error e => rw [hh] at hp; cases hp
    | ok host =>
      have hH := hph host hh
      rw [hh] at hp
      simp only at hp
      repeat' split at hp
      all_goals (cases hp <;> exact hH)

theorem userPart_slash (u : URL) : '/' ∉ userPart u := (userPart_not_mem u).2.2

theorem authority_not_mem (target u : URL) (x : Char) (hx : x = '/' ∨ x = '?' ∨ x = '#') :
    x ∉ userPart u ++ escape target.Host.data encodeHost := by
  rw [List.mem_append, not_or]
  rcases hx with rfl | rfl | rfl
  · exact ⟨(userPart_not_mem u).2.2,
      escapeHost_not_mem _ '/' (by decide) (by decide) (by decide) (by decide)⟩
  · exact ⟨(userPart_not_mem u).2.1,
      escapeHost_not_mem _ '?' (by decide) (by decide) (by decide) (by decide)⟩
  · exact ⟨(userPart_not_mem u).1,
      escapeHost_not_mem _ '#' (by decide) (by decide) (by decide) (by decide)⟩

theorem writesAuthority_false (target u : URL) (h : writesAuthority target u = false) :
    target.Host = "" ∧ u.User = none ∧ (target.Scheme = "" ∨ u.OmitHost = true ∨ u.Path = "") := by
  unfold writesAuthority at h
  simp only [Bool.or_eq_false_iff, decide_eq_false_iff_not, ne_eq, not_not,
    Bool.and_eq_false_iff, Bool.not_eq_false', Bool.and_eq_false_imp] at h
  obtain ⟨⟨h1, h2⟩, h3⟩ := h
  refine ⟨h1, by cases hU : u.User <;> simp_all, ?_⟩
  by_cases hS : target.Scheme = ""
  · exact Or.inl hS
  · by_cases hO : u.OmitHost = true
    · exact Or.inr (Or.inl hO)
    · right; right
      simp_all

theorem authority_ne_nil (target u : URL) (hw : writesAuthority target u = true)
    (hS : target.Scheme = "") : userPart u ++ escape target.Host.data encodeHost ≠ [] := by
  unfold writesAuthority at hw
  simp only [hS, ne_eq, not_true_eq_false, decide_False, Bool.false_and, Bool.or_false,
    Bool.or_eq_true, decide_eq_true_eq] at hw
  intro e
  rw [List.append_eq_nil] at e
  rcases hw with hw | hw
  · exact hw ((str_eq_empty _).2 (escape_eq_nil _ _ e.2))
  · unfold userPart at e
    cases hU : u.User with
    | none => rw [hU] at hw; cases hw
    | some ui =>
      rw [hU] at e
      simp at e
/-- The raw path that `setPath` stores for the text `p`: empty when `p` is the default
escaping of its own decoding. -/
theorem rawPath_formula_nil :
    (if ([] : List Char) = escape (unescapeBuild encodePath []) encodePath then ""
      else String.mk []) = "" := by
  rfl

theorem parseRest_assembled (url url2 target u : URL)
    (hsch : url.Scheme ≠ "" ↔ target.Scheme ≠ "")
    (hH0 : url.Host = "") (hP0 : url.Path = "") (hR0 : url.RawPath = "")
    (hbH : isBytes target.Host.data)
    (hs : u.EscapedPath = [] ∨ u.EscapedPath.head? = some '/')
    (hn : writesAuthority target u = false → hasPrefix u.EscapedPath ['/', '/'] = false)
    (hp : parseRest url (authorityPart target u ++ u.EscapedPath) = .ok url2) :
    url2.Scheme = url.Scheme ∧ url2.Host = target.Host ∧
    url2.Path = String.mk (unescapeBuild encodePath u.EscapedPath) ∧
    url2.RawPath = (if u.EscapedPath
        = escape (unescapeBuild encodePath u.EscapedPath) encodePath then ""
      else String.mk u.EscapedPath) ∧
    url2.RawQuery = url.RawQuery ∧ url2.Fragment = url.Fragment ∧
    url2.RawFragment = url.RawFragment := by
  by_cases hw : writesAuthority target u = true
  · have hslash : '/' ∉ userPart u ++ escape target.Host.data encodeHost :=
      authority_not_mem target u '/' (Or.inl rfl)
    have hrest : authorityPart target u ++ u.EscapedPath
        = '/' :: '/' :: ((userPart u ++ escape target.Host.data encodeHost)
            ++ u.EscapedPath) := by
      simp [authorityPart, hw]
    rw [hrest] at hp
    unfold parseRest at hp
    have c1 : hasPrefix ('/' :: '/' :: ((userPart u ++ escape target.Host.data encodeHost)
        ++ u.EscapedPath)) ['/'] = true := by simp [hasPrefix]
    have c2 : hasPrefix ('/' :: '/' :: ((userPart u ++ escape target.Host.data encodeHost)
        ++ u.EscapedPath)) ['/', '/'] = true := by simp [hasPrefix]
    have c3 : url.Scheme ≠ "" ∨ (!hasPrefix ('/' :: '/' ::
        ((userPart u ++ escape target.Host.data encodeHost) ++ u.EscapedPath))
        ['/', '/', '/']) = true := by
      by_cases hS : target.Scheme = ""
      · right
        have hne := authority_ne_nil target u hw hS
        cases hA : userPart u ++ escape target.Host.data encodeHost with
        | nil => exact absurd hA hne
        | cons c A =>
          have hc : c ≠ '/' := by
            intro e
            apply hslash
            rw [hA, e]
            simp
          simp [hasPrefix, hc]
      · exact Or.inl (hsch.2 hS)
    simp only [c1, c2, c3, Bool.not_true, Bool.false_eq_true, false_and, if_false,
      and_self, if_true, List.drop_succ_cons, List.drop_zero,
      splitAuthority_assembled _ _ hslash hs] at hp
    cases ha : parseAuthority (userPart u ++ escape target.Host.data encodeHost) with
    | error e => rw [ha] at hp; cases hp
    | ok r =>
      obtain ⟨usr, host⟩ := r
      rw [ha] at hp
      simp only at hp
      have hhost : host = target.Host.data :=
        parseAuthority_assembled u _ target.Host.data host usr
          (fun h2 hh => parseHost_escape _ h2 hbH hh)
          (escapeHost_not_mem _ '@' (by decide) (by decide) (by decide) (by decide)) ha
      obtain ⟨_, h2⟩ := setPath_ok _ _ _ hp
      subst h2
      subst hhost
      exact ⟨rfl, rfl, rfl, rfl, rfl, rfl, rfl⟩
  · have hw : writesAuthority target u = false := by simpa using hw
    obtain ⟨hHe, _, _⟩ := writesAuthority_false target u hw
    have hn := hn hw
    have hrest : authorityPart target u ++ u.EscapedPath = u.EscapedPath := by
      simp [authorityPart, hw]
    rw [hrest] at hp
    unfold parseRest at hp
    rcases hs with hs | hs
    · rw [hs] at hp ⊢
      by_cases hS : url.Scheme = ""
      · have d1 : containsByte ':' (cutByte '/' ([] : List Char)).1 = false := rfl
        simp only [hS, ne_eq, not_true_eq_false, and_false, if_false, d1, hasPrefix,
          Bool.false_eq_true, false_and, Bool.not_false, and_true, or_true, true_and] at hp
        obtain ⟨_, h2⟩ := setPath_ok _ _ _ hp
        subst h2
        exact ⟨rfl, by rw [hH0, hHe], rfl, rfl, rfl, rfl, rfl⟩
      · simp only [hasPrefix, Bool.not_false, ne_eq, hS, not_false_eq_true, and_self,
          if_true] at hp
        injection hp with hp
        subst hp
        exact ⟨rfl, by rw [hH0, hHe], by simpa [unescapeBuild] using hP0,
          by rw [rawPath_formula_nil]; exact hR0, rfl, rfl, rfl⟩
    · cases hE : u.EscapedPath with
      | nil => rw [hE] at hs; cases hs
      | cons c E =>
        rw [hE] at hs hn hp
        simp only [List.head?_cons, Option.some.injEq] at hs
        subst hs
        have d1 : hasPrefix ('/' :: E) ['/'] = true := by simp [hasPrefix]
        simp only [d1, hn, Bool.not_true, Bool.false_eq_true, false_and, if_false,
          and_false, and_true] at hp
        by_cases hS : url.Scheme = ""
        · simp only [hS, ne_eq, not_true_eq_false, if_false] at hp
          obtain ⟨_, h2⟩ := setPath_ok _ _ _ hp
          subst h2
          exact ⟨rfl, by rw [hH0, hHe], rfl, rfl, rfl, rfl, rfl⟩
        · simp only [hS, ne_eq, not_false_eq_true, if_true] at hp
          obtain ⟨_, h2⟩ := setPath_ok _ _ _ hp
          subst h2
          exact ⟨rfl, by rw [hH0, hHe], rfl, rfl, rfl, rfl, rfl⟩
theorem path_ne_star (u : URL) (hb : isBytes u.Path.data)
    (hs : u.EscapedPath = [] ∨ u.EscapedPath.head? = some '/') : u.Path ≠ "*" := by
  have hbuild := escapedPath_unescape u hb
  intro e
  rw [e] at hbuild
  rcases hs with hs | hs
  · rw [hs] at hbuild
    cases hbuild
  · cases hE : u.EscapedPath with
    | nil => rw [hE] at hs; cases hs
    | cons c E =>
      rw [hE] at hs hbuild
      simp only [List.head?_cons, Option.some.injEq] at hs
      subst hs
      rw [unescapeBuild_cons_ne encodePath '/' E (by decide)] at hbuild
      simp at hbuild

theorem EscapedPath_congr (a b : URL) (hP : a.Path = b.Path) (hR : a.RawPath = b.RawPath) :
    a.EscapedPath = b.EscapedPath := by
  unfold URL.EscapedPath
  rw [hP, hR]

theorem EscapedFragment_congr (a b : URL) (hF : a.Fragment = b.Fragment)
    (hR : a.RawFragment = b.RawFragment) : a.EscapedFragment = b.EscapedFragment := by
  unfold URL.EscapedFragment
  rw [hF, hR]

theorem EscapedPath_rawEmpty (a : URL) (hR : a.RawPath = "") (hstar : a.Path ≠ "*") :
    a.EscapedPath = escape a.Path.data encodePath := by
  unfold URL.EscapedPath
  simp [hR, hstar]

theorem EscapedFragment_rawEmpty (a : URL) (hR : a.RawFragment = "") :
    a.EscapedFragment = escape a.Fragment.data encodeFragment := by
  unfold URL.EscapedFragment
  simp [hR]

/-- A URL that holds the decoded path of `u` and, as raw path, what `setPath` stores for
the escaped path of `u`, has the same escaped path as `u`. -/
theorem escapedPath_roundtrip (u u2 : URL) (hb : isBytes u.Path.data)
    (hs : u.EscapedPath = [] ∨ u.EscapedPath.head? = some '/')
    (hP : u2.Path = u.Path)
    (hR : u2.RawPath = (if u.EscapedPath
        = escape (unescapeBuild encodePath u.EscapedPath) encodePath then ""
      else String.mk u.EscapedPath)) :
    u2.EscapedPath = u.EscapedPath := by
  have hstar := path_ne_star u hb hs
  rw [escapedPath_unescape u hb] at hR
  by_cases hc : u.EscapedPath = escape u.Path.data encodePath
  · rw [if_pos hc] at hR
    rw [EscapedPath_rawEmpty u2 hR (by rw [hP]; exact hstar), hP, ← hc]
  · rw [if_neg hc] at hR
    rcases EscapedPath_cases u with ⟨h, _, _, _⟩ | ⟨_, h⟩ | h
    · apply EscapedPath_congr u2 u hP
      rw [hR, h]
    · exact absurd h hstar
    · exact absurd h hc

theorem escapedFragment_roundtrip (u u2 : URL) (hb : isBytes u.Fragment.data)
    (hF : u2.Fragment = u.Fragment)
    (hR : u2.RawFragment = (if u.EscapedFragment
        = escape (unescapeBuild encodeFragment u.EscapedFragment) encodeFragment then ""
      else String.mk u.EscapedFragment)) :
    u2.EscapedFragment = u.EscapedFragment := by
  rw [escapedFragment_unescape u hb] at hR
  by_cases hc : u.EscapedFragment = escape u.Fragment.data encodeFragment
  · rw [if_pos hc] at hR
    rw [EscapedFragment_rawEmpty u2 hR, hF, ← hc]
  · rw [if_neg hc] at hR
    rcases EscapedFragment_cases u with ⟨h, _, _, _⟩ | h
    · apply EscapedFragment_congr u2 u hF
      rw [hR, h]
    · exact absurd h hc

theorem escapedFragment_empty (u : URL) (hf : u.Fragment = "") : u.EscapedFragment = [] := by
  rcases EscapedFragment_cases u with ⟨h, _, hr, hu⟩ | h
  · have hb := unescape_ok _ _ _ hu
    rw [hf] at hb
    have hne := (str_ne_empty _).1 hr
    cases hd : u.RawFragment.data with
    | nil => exact absurd hd hne
    | cons c l =>
      rw [hd] at hb
      by_cases hc : c = '%'
      · subst hc
        cases l with
        | nil => simp [unescapeBuild] at hb
        | cons a l =>
          cases l with
          | nil => simp [unescapeBuild] at hb
          | cons b l => rw [unescapeBuild_percent] at hb; cases hb
      · rw [unescapeBuild_cons_ne _ c l hc] at hb
        cases hb
  · rw [h, hf]
    rfl
theorem authorityPart_not_mem (target u : URL) (x : Char) (hx : x = '?' ∨ x = '#') :
    x ∉ authorityPart target u := by
  unfold authorityPart
  split
  · simp only [List.mem_cons, not_or]
    rcases hx with rfl | rfl
    · exact ⟨by decide, by decide, authority_not_mem target u '?' (Or.inr (Or.inl rfl))⟩
    · exact ⟨by decide, by decide, authority_not_mem target u '#' (Or.inr (Or.inr rfl))⟩
  · simp

theorem authorityPart_head (target u : URL) :
    authorityPart target u = [] ∨ (authorityPart target u).head? = some '/' := by
  unfold authorityPart
  split
  · right; rfl
  · left; rfl

theorem queryPart_head (u : URL) : queryPart u = [] ∨ (queryPart u).head? = some '?' := by
  unfold queryPart
  split
  · right; rfl
  · left; rfl

/-- Without a scheme, the assembled text is empty or begins with a slash or a question
mark. -/
theorem assembled_head (target u : URL)
    (hs : u.EscapedPath = [] ∨ u.EscapedPath.head? = some '/') :
    (authorityPart target u ++ u.EscapedPath) ++ queryPart u = [] ∨
    ((authorityPart target u ++ u.EscapedPath) ++ queryPart u).head? = some '/' ∨
    ((authorityPart target u ++ u.EscapedPath) ++ queryPart u).head? = some '?' := by
  rcases authorityPart_head target u with ha | ha
  · rw [ha]
    rcases hs with hs | hs
    · rw [hs]
      rcases queryPart_head u with hq | hq
      · left; rw [hq]; rfl
      · right; right; simpa using hq
    · right; left
      cases hE : u.EscapedPath with
      | nil => rw [hE] at hs; cases hs
      | cons c E => rw [hE] at hs; simpa using hs
  · right; left
    cases hA : authorityPart target u with
    | nil => rw [hA] at ha; cases ha
    | cons c A => rw [hA] at ha; simpa using ha

theorem parse_assembled (target u url2 : URL)
    (hS : target.Scheme = "" ∨ validScheme target.Scheme = true)
    (hbH : isBytes target.Host.data)
    (hs : u.EscapedPath = [] ∨ u.EscapedPath.head? = some '/')
    (hn : writesAuthority target u = false → hasPrefix u.EscapedPath ['/', '/'] = false)
    (hp : parse (schemePart target ++ authorityPart target u ++ u.EscapedPath
      ++ queryPart u) = .ok url2) :
    url2.Scheme = String.mk (toLowerASCII target.Scheme.data) ∧ url2.Host = target.Host ∧
    url2.Path = String.mk (unescapeBuild encodePath u.EscapedPath) ∧
    url2.RawPath = (if u.EscapedPath
        = escape (unescapeBuild encodePath u.EscapedPath) encodePath then ""
      else String.mk u.EscapedPath) ∧
    url2.RawQuery = u.RawQuery ∧ url2.Fragment = "" ∧ url2.RawFragment = "" ∧
    url2.ForceQuery = (u.ForceQuery && decide (u.RawQuery = "")) := by
  have hR : '?' ∉ authorityPart target u ++ u.EscapedPath := by
    rw [List.mem_append, not_or]
    exact ⟨authorityPart_not_mem target u '?' (Or.inl rfl), (escapedPath_not_mem u).2⟩
  have hre : schemePart target ++ authorityPart target u ++ u.EscapedPath ++ queryPart u
      = schemePart target ++ ((authorityPart target u ++ u.EscapedPath) ++ queryPart u) := by
    simp
  rw [hre] at hp
  have hsch : (String.mk (toLowerASCII target.Scheme.data) ≠ "" ↔ target.Scheme ≠ "") := by
    rw [str_ne_empty, str_ne_empty]
    show toLowerASCII target.Scheme.data ≠ [] ↔ _
    rw [Ne, toLowerASCII_eq_nil]
  have hgs : getScheme (schemePart target ++
      ((authorityPart target u ++ u.EscapedPath) ++ queryPart u))
      = .ok (target.Scheme.data, (authorityPart target u ++ u.EscapedPath) ++ queryPart u) := by
    rcases hS with hS | hS
    · have : schemePart target = [] := by simp [schemePart, hS]
      rw [this, List.nil_append, getScheme_noScheme _ (assembled_head target u hs), hS]
    · have : schemePart target = target.Scheme.data ++ [':'] := by
        simp [schemePart, validScheme_ne_empty _ hS]
      rw [this, List.append_assoc, List.singleton_append]
      exact getScheme_valid target.Scheme _ hS
  have hstar : schemePart target ++
      ((authorityPart target u ++ u.EscapedPath) ++ queryPart u) ≠ ['*'] := by
    intro e
    rcases hS with hS | hS
    · have hsp : schemePart target = [] := by simp [schemePart, hS]
      rw [hsp, List.nil_append] at e
      rcases assembled_head target u hs with h | h | h <;> rw [e] at h <;> simp at h
    · have hsp : schemePart target = target.Scheme.data ++ [':'] := by
        simp [schemePart, validScheme_ne_empty _ hS]
      have hne := (str_ne_empty _).1 (validScheme_ne_empty _ hS)
      have hlen := congrArg List.length e
      rw [hsp] at hlen
      simp only [List.length_append, List.length_singleton, List.length_cons,
        List.length_nil] at hlen
      have hpos : 0 < target.Scheme.data.length := List.length_pos.2 hne
      omega
  unfold parse at hp
  by_cases hctl : stringContainsCTLByte (schemePart target ++
      ((authorityPart target u ++ u.EscapedPath) ++ queryPart u)) = true
  · rw [if_pos hctl] at hp; cases hp
  · rw [if_neg hctl, if_neg hstar, hgs] at hp
    simp only at hp
    have hq := splitQuery_assembled (String.mk (toLowerASCII target.Scheme.data)) u _ hR
    rw [hq] at hp
    simp only at hp
    obtain ⟨h1, h2, h3, h4, h5, h6, h7⟩ := parseRest_assembled _ url2 target u hsch rfl rfl
      rfl hbH hs hn hp
    exact ⟨h1, h2, h3, h4, h5, h6, h7, (parseRest_forceQuery _ url2 _ hp).1⟩
theorem schemePart_not_mem (target : URL)
    (hS : target.Scheme = "" ∨ validScheme target.Scheme = true) : '#' ∉ schemePart target := by
  unfold schemePart
  rcases hS with hS | hS
  · simp [hS]
  · rw [if_pos (validScheme_ne_empty _ hS)]
    simp only [List.mem_append, List.mem_singleton, not_or]
    exact ⟨validScheme_not_mem _ hS '#' (by decide), by decide⟩

/-- Parsing the string that `String()` assembles for a rewritten URL gives back the
target's scheme (in lower case) and host and the path, query and fragment that went in,
decoded and escaped, and the `ForceQuery` flag when that goes with an empty query. -/
theorem urlParse_assembled (target u u2 : URL)
    (hS : target.Scheme = "" ∨ validScheme target.Scheme = true)
    (hbH : isBytes target.Host.data)
    (hs : u.EscapedPath = [] ∨ u.EscapedPath.head? = some '/')
    (hn : writesAuthority target u = false → hasPrefix u.EscapedPath ['/', '/'] = false)
    (hq : '#' ∉ u.RawQuery.data) (hbp : isBytes u.Path.data) (hbf : isBytes u.Fragment.data)
    (hp : urlParse (String.mk (schemePart target ++ authorityPart target u ++ u.EscapedPath
      ++ queryPart u ++ fragPart u)) = .ok u2) :
    u2.Scheme = String.mk (toLowerASCII target.Scheme.data) ∧ u2.Host = target.Host ∧
    u2.Path = u.Path ∧ u2.EscapedPath = u.EscapedPath ∧ u2.RawQuery = u.RawQuery ∧
    u2.Fragment = u.Fragment ∧ u2.EscapedFragment = u.EscapedFragment ∧
    u2.ForceQuery = (u.ForceQuery && decide (u.RawQuery = "")) := by
  have hpre : '#' ∉ schemePart target ++ authorityPart target u ++ u.EscapedPath
      ++ queryPart u := by
    simp only [List.mem_append, not_or]
    exact ⟨⟨⟨schemePart_not_mem target hS, authorityPart_not_mem target u '#' (Or.inr rfl)⟩,
      (escapedPath_not_mem u).1⟩, queryPart_not_mem u hq⟩
  have hpath : String.mk (unescapeBuild encodePath u.EscapedPath) = u.Path := by
    rw [escapedPath_unescape u hbp]
  unfold urlParse at hp
  simp only at hp
  by_cases hf : u.Fragment ≠ ""
  · have hfp : fragPart u = '#' :: u.EscapedFragment := by simp [fragPart, hf]
    rw [hfp, cutByte_append '#' _ _ hpre] at hp
    simp only at hp
    cases hpp : parse (schemePart target ++ authorityPart target u ++ u.EscapedPath
        ++ queryPart u) with
    | error e => rw [hpp] at hp; cases hp
    | ok url2 =>
      obtain ⟨h1, h2, h3, h4, h5, _, _, h8⟩ := parse_assembled target u url2 hS hbH hs hn hpp
      rw [hpp] at hp
      simp only [escapedFragment_ne_nil u hf, if_false] at hp
      cases hsf : url2.setFragment u.EscapedFragment with
      | error e => rw [hsf] at hp; cases hp
      | ok u3 =>
        rw [hsf] at hp
        injection hp with hp
        subst hp
        obtain ⟨_, g⟩ := setFragment_ok _ _ _ hsf
        have gF : u3.Fragment = u.Fragment := by
          rw [g]
          show String.mk (unescapeBuild encodeFragment u.EscapedFragment) = _
          rw [escapedFragment_unescape u hbf]
        have gR : u3.RawFragment = (if u.EscapedFragment
            = escape (unescapeBuild encodeFragment u.EscapedFragment) encodeFragment then ""
            else String.mk u.EscapedFragment) := by rw [g]
        have gP : u3.Path = url2.Path := by rw [g]
        have gRP : u3.RawPath = url2.RawPath := by rw [g]
        refine ⟨by rw [g]; exact h1, by rw [g]; exact h2, gP.trans (h3.trans hpath), ?_,
          by rw [g]; exact h5, gF, escapedFragment_roundtrip u u3 hbf gF gR,
          by rw [g]; exact h8⟩
        exact escapedPath_roundtrip u u3 hbp hs (gP.trans (h3.trans hpath)) (gRP.trans h4)
  · have hf2 : u.Fragment = "" := by
      by_contra h
      exact hf h
    have hfp : fragPart u = [] := by simp [fragPart, hf2]
    rw [hfp, List.append_nil, cutByte_not_mem '#' _ hpre] at hp
    simp only at hp
    cases hpp : parse (schemePart target ++ authorityPart target u ++ u.EscapedPath
        ++ queryPart u) with
    | error e => rw [hpp] at hp; cases hp
    | ok url2 =>
      obtain ⟨h1, h2, h3, h4, h5, h6, h7, h8⟩ :=
        parse_assembled target u url2 hS hbH hs hn hpp
      rw [hpp] at hp
      simp only [if_true] at hp
      injection hp with hp
      subst hp
      refine ⟨h1, h2, h3.trans hpath, escapedPath_roundtrip u _ hbp hs (h3.trans hpath) h4,
        h5, h6.trans hf2.symm, ?_, h8⟩
      rw [EscapedFragment_rawEmpty _ h7, h6, escapedFragment_empty u hf2]
      rfl
theorem setPath_inv (url u2 : URL) (p : List Char) (h : URL.setPath url p = .ok u2) :
    u2.Path = String.mk (unescapeBuild encodePath p) ∧
    (u2.RawPath = "" ∨ unescape u2.RawPath.data encodePath = .ok u2.Path.data) ∧
    u2.RawQuery = url.RawQuery ∧ u2.Fragment = url.Fragment ∧
    u2.RawFragment = url.RawFragment := by
  obtain ⟨hu, g⟩ := setPath_ok _ _ _ h
  subst g
  refine ⟨rfl, ?_, rfl, rfl, rfl⟩
  by_cases hc : p = escape (unescapeBuild encodePath p) encodePath
  · left; exact if_pos hc
  · right
    show unescape (if _ then _ else _ : String).data encodePath = _
    rw [if_neg hc]; exact hu

theorem parseRest_inv (url u : URL) (rest : List Char) (hpath : url.Path = "")
    (hraw : url.RawPath = "")
    (h : parseRest url rest = .ok u) :
    u.RawQuery = url.RawQuery ∧ u.Fragment = url.Fragment ∧
    u.RawFragment = url.RawFragment ∧
    (u.RawPath = "" ∨ unescape u.RawPath.data encodePath = .ok u.Path.data) ∧
    ∃ p, (∀ c ∈ p, c ∈ rest) ∧ u.Path = String.mk (unescapeBuild encodePath p) := by
  unfold parseRest at h
  split at h
  · injection h with h
    subst h
    exact ⟨rfl, rfl, rfl, Or.inl hraw, [], by simp, by simpa [unescapeBuild] using hpath⟩
  · split at h
    · cases h
    · split at h
      · simp only at h
        split at h
        · cases h
        · obtain ⟨h1, h2, h4, h5, h6⟩ := setPath_inv _ _ _ h
          exact ⟨h4, h5, h6, h2, _, fun c hc =>
            List.mem_of_mem_drop (splitAuthority_snd_mem _ c hc), h1⟩
      · split at h
        · obtain ⟨h1, h2, h4, h5, h6⟩ := setPath_inv _ _ _ h
          exact ⟨h4, h5, h6, h2, rest, fun c hc => hc, h1⟩
        · obtain ⟨h1, h2, h4, h5, h6⟩ := setPath_inv _ _ _ h
          exact ⟨h4, h5, h6, h2, rest, fun c hc => hc, h1⟩

theorem splitQuery_inv2 (url : URL) (rest0 : List Char) :
    (splitQuery url rest0).1.RawPath = url.RawPath ∧
    (splitQuery url rest0).1.RawFragment = url.RawFragment := by
  unfold splitQuery
  split <;> exact ⟨rfl, rfl⟩

theorem parse_inv (l : List Char) (u : URL) (h : parse l = .ok u) :
    (∀ c ∈ u.RawQuery.data, c ∈ l) ∧ u.Fragment = "" ∧ u.RawFragment = "" ∧
    (u.RawPath = "" ∨ unescape u.RawPath.data encodePath = .ok u.Path.data) ∧
    ∃ p, (∀ c ∈ p, c ∈ l) ∧ u.Path = String.mk (unescapeBuild encodePath p) := by
  unfold parse at h
  split at h
  · cases h
  · split at h
    · rename_i hstar
      injection h with h
      subst h
      exact ⟨by simp, rfl, rfl, Or.inl rfl, ['*'], by simp [hstar], rfl⟩
    · split at h
      · cases h
      · rename_i sch rest0 hg
        simp only at h
        obtain ⟨q1, q2, q3, q4⟩ :=
          splitQuery_inv { Scheme := String.mk (toLowerASCII sch) } rest0
        obtain ⟨q5, q6⟩ := splitQuery_inv2 { Scheme := String.mk (toLowerASCII sch) } rest0
        obtain ⟨r1, r2, r5, r6, p, r3, r4⟩ := parseRest_inv _ u _ q3 q5 h
        have hrest := getScheme_mem l sch rest0 hg
        refine ⟨?_, r2.trans q4, r5.trans q6, r6, p, fun c hc => hrest c (q1 c (r3 c hc)), r4⟩
        intro c hc
        rw [r1] at hc
        rcases q2 c hc with h1 | h1
        · simp at h1
        · exact hrest c h1

/-- What `url.Parse` guarantees of its result: no `#` in the raw query, byte strings as
path and fragment, and raw forms that decode to the decoded forms. -/
theorem urlParse_inv (s : String) (u : URL) (h : urlParse s = .ok u) (hb : isBytes s.data) :
    '#' ∉ u.RawQuery.data ∧ isBytes u.Path.data ∧ isBytes u.Fragment.data ∧
    (u.RawPath = "" ∨ unescape u.RawPath.data encodePath = .ok u.Path.data) ∧
    (u.RawFragment = "" ∨
      unescape u.RawFragment.data encodeFragment = .ok u.Fragment.data) := by
  unfold urlParse at h
  simp only at h
  cases hp : parse (cutByte '#' s.data).1 with
  | error e => rw [hp] at h; cases h
  | ok url =>
    obtain ⟨i1, i2, i5, i6, p, i3, i4⟩ := parse_inv _ url hp
    have hnq : '#' ∉ url.RawQuery.data :=
      fun hm => cutByte_fst_not_mem '#' s.data (i1 _ hm)
    have hbp : isBytes url.Path.data := by
      rw [i4]
      exact unescapeBuild_bytes encodePath p.length p (Nat.le_refl _)
        (fun c hc => hb c (cutByte_fst_mem _ _ c (i3 c hc)))
    rw [hp] at h
    simp only at h
    split at h
    · injection h with h
      subst h
      refine ⟨hnq, hbp, ?_, i6, Or.inl i5⟩
      rw [i2]
      intro c hc
      cases hc
    · cases hsf : url.setFragment (cutByte '#' s.data).2.1 with
      | error e => rw [hsf] at h; cases h
      | ok u3 =>
        rw [hsf] at h
        injection h with h
        subst h
        obtain ⟨hu, g⟩ := setFragment_ok _ _ _ hsf
        subst g
        refine ⟨hnq, hbp, ?_, i6, ?_⟩
        · exact unescapeBuild_bytes encodeFragment _ _ (Nat.le_refl _)
            (fun c hc => hb c (cutByte_snd_mem _ _ c hc))
        · by_cases hc : (cutByte '#' s.data).2.1
              = escape (unescapeBuild encodeFragment (cutByte '#' s.data).2.1) encodeFragment
          · left; exact if_pos hc
          · right
            show unescape (if _ then _ else _ : String).data encodeFragment = _
            rw [if_neg hc]; exact hu

theorem EscapedPath_raw (u : URL) (hr : u.RawPath ≠ "")
    (hv : validEncoded u.RawPath.data encodePath = true)
    (hu : unescape u.RawPath.data encodePath = .ok u.Path.data) :
    u.EscapedPath = u.RawPath.data := by
  unfold URL.EscapedPath
  simp [hr, hv, hu]

theorem EscapedFragment_raw (u : URL) (hr : u.RawFragment ≠ "")
    (hv : validEncoded u.RawFragment.data encodeFragment = true)
    (hu : unescape u.RawFragment.data encodeFragment = .ok u.Fragment.data) :
    u.EscapedFragment = u.RawFragment.data := by
  unfold URL.EscapedFragment
  simp [hr, hv, hu]
/-- The round trip behind the rewrite: the URL of the request that `http.NewRequest`
builds from the string of the rewritten URL, and the `Host` field of that request. -/
theorem rewritten_roundtrip (target : URL) (line : logLine) (u : URL) (request : Request)
    (hb : isBytes line.url.data)
    (hp : urlParse line.url = .ok u)
    (ho : u.Opaque = "")
    (hs : u.EscapedPath = [] ∨ u.EscapedPath.head? = some '/')
    (hS : target.Scheme = "" ∨ validScheme target.Scheme = true)
    (hbH : isBytes target.Host.data)
    (hn : writesAuthority target u = false → hasPrefix u.EscapedPath ['/', '/'] = false)
    (hr : NewRequest line.method (rewriteURL target u).String none = .ok request) :
    request.URL.Scheme = String.mk (toLowerASCII target.Scheme.data) ∧
    request.URL.Host = removeEmptyPort target.Host ∧
    request.Host = removeEmptyPort target.Host ∧
    request.URL.Path = u.Path ∧
    request.URL.EscapedPath = u.EscapedPath ∧
    request.URL.RawQuery = u.RawQuery ∧
    request.URL.Fragment = u.Fragment ∧
    request.URL.EscapedFragment = u.EscapedFragment ∧
    request.URL.ForceQuery = u.ForceQuery := by
  obtain ⟨_, _, _, u2, hu2, hurl, hhost⟩ := NewRequest_ok _ _ _ _ hr
  obtain ⟨hq, hbp, hbf, _, _⟩ := urlParse_inv line.url u hp hb
  have hfq := urlParse_forceQuery line.url u hp
  rw [String_rewritten target u ho hs] at hu2
  obtain ⟨h1, h2, h3, h4, h5, h6, h7, h8⟩ :=
    urlParse_assembled target u u2 hS hbH hs hn hq hbp hbf hu2
  rw [hurl, hhost]
  refine ⟨h1, by simp [h2], by rw [h2], h3, ?_, h5, h6, ?_, ?_⟩
  · exact (EscapedPath_congr _ u2 rfl rfl).trans h4
  · exact (EscapedFragment_congr _ u2 rfl rfl).trans h7
  · show u2.ForceQuery = u.ForceQuery
    rw [h8]
    cases hF : u.ForceQuery with
    | false => rfl
    | true => simp [hfq hF]

theorem removeEmptyPort_noColon (host : String) (h : host.data.getLast? ≠ some ':') :
    removeEmptyPort host = host := by
  unfold removeEmptyPort
  rw [if_neg]
  exact fun hc => h hc.2
/-! ## The claims -/

/-- C1: on every way through `sendRequest` (whatever URL parsing, request construction,
the transport and the body drain do), exactly one of the two outcome counters goes up, by
exactly one, and the other is unchanged; the trace gains exactly one call of `success()`
or `fail()`; hence after any sequence of calls the sum of the two counters has grown by
the number of calls. -/
theorem sendRequest_counts_exactly_one :
    (∀ (env : Env) (target : URL) (line : logLine) (w : World),
      ((sendRequest env target line w).2.stats.success = w.stats.success + 1 ∧
        (sendRequest env target line w).2.stats.failure = w.stats.failure) ∨
      ((sendRequest env target line w).2.stats.success = w.stats.success ∧
        (sendRequest env target line w).2.stats.failure = w.stats.failure + 1)) ∧
    (∀ (env : Env) (target : URL) (line : logLine) (w : World),
      outcomeCalls (sendRequest env target line w).2.trace = outcomeCalls w.trace + 1) ∧
    (∀ (calls : List (Env × URL × logLine)) (w : World),
      (replayAll calls w).stats.success + (replayAll calls w).stats.failure
        = w.stats.success + w.stats.failure + calls.length) := by
  refine ⟨?_, ?_, ?_⟩
  · intro env target line w
    rcases sendRequest_cases env target line with ⟨e, hp⟩ | ⟨u, e, hp, hr⟩ |
      ⟨u, request, e, hp, hr, hd⟩ | ⟨u, request, res, hp, hr, hd⟩
    · rw [sendRequest_parse_error env target line w e hp]; simp [fail]
    · rw [sendRequest_build_error env target line w u e hp hr]; simp [fail]
    · rw [sendRequest_transport_error env target line w u request e hp hr hd]; simp [fail]
    · rw [sendRequest_response env target line w u request res hp hr hd]
      rcases recordOutcome_eq res.StatusCode w.stats with ⟨_, _, h⟩ | ⟨_, h⟩
      · simp [h, addLatency, success]
      · simp [h, addLatency, fail]
  · intro env target line w
    rcases sendRequest_cases env target line with ⟨e, hp⟩ | ⟨u, e, hp, hr⟩ |
      ⟨u, request, e, hp, hr, hd⟩ | ⟨u, request, res, hp, hr, hd⟩
    · rw [sendRequest_parse_error env target line w e hp]
      simp [outcomeCalls_append]; simp [outcomeCalls, earlyFailureEvents]
    · rw [sendRequest_build_error env target line w u e hp hr]
      simp [outcomeCalls_append]; simp [outcomeCalls, earlyFailureEvents]
    · rw [sendRequest_transport_error env target line w u request e hp hr hd]
      simp [outcomeCalls_append]; simp [outcomeCalls, sendEvents]
    · rw [sendRequest_response env target line w u request res hp hr hd]
      rcases outcomeEvent_eq res.StatusCode with ⟨_, _, h⟩ | ⟨_, h⟩
      · simp [outcomeCalls_append]; simp [outcomeCalls, sendEvents, responseEvents, h]
      · simp [outcomeCalls_append]; simp [outcomeCalls, sendEvents, responseEvents, h]
  · intro calls
    induction calls with
    | nil => intro w; simp [replayAll]
    | cons c cs ih =>
      intro w
      have h1 := sendRequest_sum c.1 c.2.1 c.2.2 w
      have h2 := ih (sendRequest c.1 c.2.1 c.2.2 w).2
      simp only [replayAll, List.foldl_cons, List.length_cons] at h2 ⊢
      omega

/-- C2: when the transport returns a response with status code `c`, the call records a
success (success counter plus one, failure counter unchanged) if and only if
`200 ≤ c < 400`, and records a failure (failure counter plus one, success counter
unchanged) if and only if not; so 200, 301 and 399 are successes and 400, 404, 500 and
600 are failures. -/
theorem status_code_classification (env : Env) (target : URL) (line : logLine) (w : World)
    (u : URL) (request : Request) (res : Response)
    (hp : urlParse line.url = .ok u)
    (hr : NewRequest line.method (rewriteURL target u).String none = .ok request)
    (hd : env.Do (setHeaders target line request) = .ok res) :
    (((sendRequest env target line w).2.stats.success = w.stats.success + 1 ∧
        (sendRequest env target line w).2.stats.failure = w.stats.failure)
      ↔ (200 ≤ res.StatusCode ∧ res.StatusCode < 400)) ∧
    (((sendRequest env target line w).2.stats.failure = w.stats.failure + 1 ∧
        (sendRequest env target line w).2.stats.success = w.stats.success)
      ↔ ¬ (200 ≤ res.StatusCode ∧ res.StatusCode < 400)) ∧
    ((res.StatusCode = 200 ∨ res.StatusCode = 301 ∨ res.StatusCode = 399) →
      (sendRequest env target line w).2.stats.success = w.stats.success + 1 ∧
        (sendRequest env target line w).2.stats.failure = w.stats.failure) ∧
    ((res.StatusCode = 400 ∨ res.StatusCode = 404 ∨ res.StatusCode = 500
        ∨ res.StatusCode = 600) →
      (sendRequest env target line w).2.stats.failure = w.stats.failure + 1 ∧
        (sendRequest env target line w).2.stats.success = w.stats.success) := by
  rw [sendRequest_response env target line w u request res hp hr hd]
  rcases recordOutcome_eq res.StatusCode w.stats with ⟨h1, h2, h⟩ | ⟨hn, h⟩
  · simp only [h, addLatency, success]
    refine ⟨?_, ?_, ?_, ?_⟩
    · simp [h1, h2]
    · simp [h1, h2]
    · intro _; simp
    · intro hc; omega
  · simp only [h, addLatency, fail]
    refine ⟨?_, ?_, ?_, ?_⟩
    · simp [hn]
    · simp [hn]
    · intro hc; omega
    · intro _; simp

/-- Witness of C2: with the example line and target, the codes 200, 301 and 399 leave the
counters at (success 1, failure 0), and 400, 404, 500 and 600 at (success 0, failure 1). -/
theorem status_code_classification_witness :
    (∀ c ∈ [(200 : Int), 301, 399],
      (sendRequest (envStatus "" c) targetW lineW w0).2.stats.success = 1 ∧
      (sendRequest (envStatus "" c) targetW lineW w0).2.stats.failure = 0) ∧
    (∀ c ∈ [(400 : Int), 404, 500, 600],
      (sendRequest (envStatus "" c) targetW lineW w0).2.stats.failure = 1 ∧
      (sendRequest (envStatus "" c) targetW lineW w0).2.stats.success = 0) := by
  constructor
  · intro c hc
    have h := (status_code_classification (envStatus "" c) targetW lineW w0 parsedW requestW
      { Status := "", StatusCode := c } parsedW_eq requestW_eq rfl).2.2.1
      (by simpa using hc)
    simpa [w0] using h
  · intro c hc
    have h := (status_code_classification (envStatus "" c) targetW lineW w0 parsedW requestW
      { Status := "", StatusCode := c } parsedW_eq requestW_eq rfl).2.2.2
      (by simpa using hc)
    simpa [w0] using h

/-- Counterexample to C3 as stated, on target `https://replay.test` unless said otherwise.
The URL `http:foo` parses (as an opaque URL); the request built for it is handed to the
transport with the URL `https:foo`, whose host is empty, not the target's host.  The URL
`a/b` parses with path `a/b`; the request built for it has path `/a/b`.  The URL
`http://origin.example/a b` parses; its path is written `/a b` in the line and `/a%20b`
in the URL of the request.  On target host `replay.test:` the request host is
`replay.test`; on target scheme `HTTPS` the request scheme is `https`; on target scheme
`a/b` the request has neither scheme nor host; on the empty target the line URL
`http://origin.example//x` gives a request with host `x` and an empty path. -/
theorem rewritten_request_url_counterexample :
    urlParse lineOpaque.url = .ok parsedOpaque ∧
    NewRequest lineOpaque.method (rewriteURL targetW parsedOpaque).String none
      = .ok requestOpaque ∧
    Event.Do (setHeaders targetW lineOpaque requestOpaque)
      ∈ (sendRequest envNoHost targetW lineOpaque w0).2.trace ∧
    (setHeaders targetW lineOpaque requestOpaque).URL.String = "https:foo" ∧
    (setHeaders targetW lineOpaque requestOpaque).URL.Host = "" ∧
    (setHeaders targetW lineOpaque requestOpaque).URL.Host ≠ targetW.Host ∧
    urlParse lineRelative.url = .ok parsedRelative ∧
    NewRequest lineRelative.method (rewriteURL targetW parsedRelative).String none
      = .ok requestRelative ∧
    parsedRelative.Path = "a/b" ∧
    (setHeaders targetW lineRelative requestRelative).URL.Path = "/a/b" ∧
    (setHeaders targetW lineRelative requestRelative).URL.Path ≠ parsedRelative.Path ∧
    urlParse lineSpace.url = .ok parsedSpace ∧
    NewRequest lineSpace.method (rewriteURL targetW parsedSpace).String none
      = .ok requestSpace ∧
    lineSpace.url = "http://origin.example" ++ "/a b" ∧
    (setHeaders targetW lineSpace requestSpace).URL.String
      = "https://replay.test" ++ "/a%20b" ∧
    (setHeaders targetW lineSpace requestSpace).URL.EscapedPath = "/a%20b".data ∧
    NewRequest lineW.method (rewriteURL targetColon parsedW).String none = .ok requestW ∧
    (setHeaders targetColon lineW requestW).URL.Host = "replay.test" ∧
    (setHeaders targetColon lineW requestW).URL.Host ≠ targetColon.Host ∧
    NewRequest lineW.method (rewriteURL targetUpper parsedW).String none = .ok requestW ∧
    (setHeaders targetUpper lineW requestW).URL.Scheme = "https" ∧
    (setHeaders targetUpper lineW requestW).URL.Scheme ≠ targetUpper.Scheme ∧
    NewRequest lineW.method (rewriteURL targetSlash parsedW).String none
      = .ok requestSlash ∧
    (setHeaders targetSlash lineW requestSlash).URL.Scheme = "" ∧
    (setHeaders targetSlash lineW requestSlash).URL.Host = "" ∧
    (setHeaders targetSlash lineW requestSlash).URL.Scheme ≠ targetSlash.Scheme ∧
    (setHeaders targetSlash lineW requestSlash).URL.Host ≠ targetSlash.Host ∧
    urlParse lineDouble.url = .ok parsedDouble ∧
    NewRequest lineDouble.method (rewriteURL targetEmpty parsedDouble).String none
      = .ok requestDouble ∧
    (rewriteURL targetEmpty parsedDouble).String = "//x" ∧
    (setHeaders targetEmpty lineDouble requestDouble).URL.Host = "x" ∧
    (setHeaders targetEmpty lineDouble requestDouble).URL.Path = "" ∧
    (setHeaders targetEmpty lineDouble requestDouble).URL.Host ≠ targetEmpty.Host ∧
    (setHeaders targetEmpty lineDouble requestDouble).URL.Path ≠ parsedDouble.Path := by
  refine ⟨by rfl, by rfl, ?_, by rfl, by rfl, by decide, by rfl, by rfl, by rfl, by rfl,
    by decide, by rfl, by rfl, by rfl, by rfl, by rfl, by rfl, by rfl, by decide, by rfl,
    by rfl, by decide, by rfl, by rfl, by rfl, by decide, by decide, by rfl, by rfl, by rfl,
    by rfl, by rfl, by decide, by decide⟩
  rw [sendRequest_transport_error envNoHost targetW lineOpaque w0 parsedOpaque requestOpaque
    _ (by rfl) (by rfl) rfl]
  simp [sendEvents]

/-- C3 (amended): for every log line (a byte string) whose URL parses to a URL that is not
opaque and whose escaped path is empty or begins with a slash, and every target whose
scheme is empty or a valid scheme and whose host is a byte string, provided the escaped
path does not begin with two slashes when the rewritten URL is written without an
authority, the URL of the request that `sendRequest` builds and hands to the transport
has the target's scheme in lower case (the target's scheme itself when that is in lower
case), the target's host without a trailing empty port (the target's host itself when it
does not end in a colon), and the path, query string and fragment of the line's parsed
URL unchanged, in decoded and in escaped form: the escaped path is the raw path the
parser kept from the line when that is a valid encoding, and the default escaping of the
decoded path otherwise; likewise for the fragment.  The flag for a question mark with an
empty query is kept too, so the text that `String()` writes for path, query and fragment
is the same for the request URL as for the parsed URL. -/
theorem rewritten_request_url (target : URL) (line : logLine) (u : URL) (request : Request)
    (hb : isBytes line.url.data)
    (hp : urlParse line.url = .ok u)
    (ho : u.Opaque = "")
    (hs : u.EscapedPath = [] ∨ u.EscapedPath.head? = some '/')
    (hS : target.Scheme = "" ∨ validScheme target.Scheme = true)
    (hbH : isBytes target.Host.data)
    (hn : writesAuthority target u = false → hasPrefix u.EscapedPath ['/', '/'] = false)
    (hr : NewRequest line.method (rewriteURL target u).String none = .ok request) :
    (∀ (env : Env) (w : World),
      Event.Do (setHeaders target line request) ∈ (sendRequest env target line w).2.trace) ∧
    (setHeaders target line request).URL.Scheme
      = String.mk (toLowerASCII target.Scheme.data) ∧
    (toLowerASCII target.Scheme.data = target.Scheme.data →
      (setHeaders target line request).URL.Scheme = target.Scheme) ∧
    (setHeaders target line request).URL.Host = removeEmptyPort target.Host ∧
    (target.Host.data.getLast? ≠ some ':' →
      (setHeaders target line request).URL.Host = target.Host) ∧
    (setHeaders target line request).URL.Path = u.Path ∧
    (setHeaders target line request).URL.EscapedPath = u.EscapedPath ∧
    (u.RawPath ≠ "" → validEncoded u.RawPath.data encodePath = true →
      (setHeaders target line request).URL.EscapedPath = u.RawPath.data) ∧
    (u.RawPath = "" →
      (setHeaders target line request).URL.EscapedPath = escape u.Path.data encodePath) ∧
    (setHeaders target line request).URL.RawQuery = u.RawQuery ∧
    (setHeaders target line request).URL.Fragment = u.Fragment ∧
    (setHeaders target line request).URL.EscapedFragment = u.EscapedFragment ∧
    (u.RawFragment ≠ "" → validEncoded u.RawFragment.data encodeFragment = true →
      (setHeaders target line request).URL.EscapedFragment = u.RawFragment.data) ∧
    (u.RawFragment = "" →
      (setHeaders target line request).URL.EscapedFragment
        = escape u.Fragment.data encodeFragment) ∧
    (setHeaders target line request).URL.ForceQuery = u.ForceQuery ∧
    (setHeaders target line request).URL.EscapedPath
        ++ queryPart (setHeaders target line request).URL
        ++ fragPart (setHeaders target line request).URL
      = u.EscapedPath ++ queryPart u ++ fragPart u := by
  obtain ⟨h1, h2, _, h3, h4, h5, h6, h7, h8⟩ :=
    rewritten_roundtrip target line u request hb hp ho hs hS hbH hn hr
  obtain ⟨_, hbp, _, hrp, hrf⟩ := urlParse_inv line.url u hp hb
  have hU : (setHeaders target line request).URL = request.URL := rfl
  rw [hU]
  refine ⟨?_, h1, ?_, h2, ?_, h3, h4, ?_, ?_, h5, h6, h7, ?_, ?_, h8, ?_⟩
  · intro env w
    cases hd : env.Do (setHeaders target line request) with
    | error e =>
      rw [sendRequest_transport_error env target line w u request e hp hr hd]
      simp [sendEvents]
    | ok res =>
      rw [sendRequest_response env target line w u request res hp hr hd]
      simp [sendEvents]
  · intro hl
    rw [h1, hl]
  · intro hc
    rw [h2, removeEmptyPort_noColon target.Host hc]
  · intro hne hv
    rw [h4]
    rcases hrp with hrp | hrp
    · exact absurd hrp hne
    · exact EscapedPath_raw u hne hv hrp
  · intro he
    rw [h4]
    exact EscapedPath_rawEmpty u he (path_ne_star u hbp hs)
  · intro hne hv
    rw [h7]
    rcases hrf with hrf | hrf
    · exact absurd hrf hne
    · exact EscapedFragment_raw u hne hv hrf
  · intro he
    rw [h7]
    exact EscapedFragment_rawEmpty u he
  · unfold queryPart fragPart
    rw [h4, h5, h6, h7, h8]

/-- Witness of C3 (amended): rewriting `http://origin.example/a/b?x=1#frag` onto the target
`https://replay.test` gives a request for `https://replay.test/a/b?x=1#frag`; onto
`h2c://replay.test` a request for `h2c://replay.test/a/b?x=1#frag`; onto the empty
target a request for `/a/b?x=1#frag`; and `http://origin.example/a%2Fb/%2e%2e/x` onto
`https://replay.test` gives a request whose escaped path is still `/a%2Fb/%2e%2e/x`, and
`http://origin.example/a?` gives a request for `https://replay.test/a?`. -/
theorem rewritten_request_url_witness :
    urlParse lineW.url = .ok parsedW ∧
    (setHeaders targetW lineW requestW).URL.String = "https://replay.test/a/b?x=1#frag" ∧
    (setHeaders targetW lineW requestW).URL.Scheme = "https" ∧
    (setHeaders targetW lineW requestW).URL.Host = "replay.test" ∧
    (setHeaders targetW lineW requestW).URL.Path = "/a/b" ∧
    (setHeaders targetW lineW requestW).URL.EscapedPath = "/a/b".data ∧
    (setHeaders targetW lineW requestW).URL.RawQuery = "x=1" ∧
    (setHeaders targetW lineW requestW).URL.Fragment = "frag" ∧
    (setHeaders targetW lineW requestW).URL.EscapedFragment = "frag".data ∧
    (setHeaders targetH2c lineW requestH2c).URL.String = "h2c://replay.test/a/b?x=1#frag" ∧
    (setHeaders targetH2c lineW requestH2c).URL.Scheme = "h2c" ∧
    (setHeaders targetH2c lineW requestH2c).URL.Host = "replay.test" ∧
    (setHeaders targetEmpty lineW requestEmptyTarget).URL.String = "/a/b?x=1#frag" ∧
    (setHeaders targetEmpty lineW requestEmptyTarget).URL.Scheme = "" ∧
    (setHeaders targetEmpty lineW requestEmptyTarget).URL.Host = "" ∧
    (setHeaders targetEmpty lineW requestEmptyTarget).URL.Path = "/a/b" ∧
    urlParse lineEscaped.url = .ok parsedEscaped ∧
    (setHeaders targetW lineEscaped requestEscaped).URL.String
      = "https://replay.test/a%2Fb/%2e%2e/x" ∧
    (setHeaders targetW lineEscaped requestEscaped).URL.Path = "/a/b/../x" ∧
    (setHeaders targetW lineEscaped requestEscaped).URL.EscapedPath
      = "/a%2Fb/%2e%2e/x".data ∧
    urlParse lineForce.url = .ok parsedForce ∧
    (setHeaders targetW lineForce requestForce).URL.String = "https://replay.test/a?" ∧
    (setHeaders targetW lineForce requestForce).URL.ForceQuery = true := by
  have h := rewritten_request_url targetW lineW parsedW requestW (by decide) parsedW_eq rfl
    (Or.inr (by rfl)) (Or.inr (by rfl)) (by decide) (fun hw => by rfl) requestW_eq
  have h2 := rewritten_request_url targetH2c lineW parsedW requestH2c (by decide) parsedW_eq
    rfl (Or.inr (by rfl)) (Or.inr (by rfl)) (by decide) (fun hw => by rfl) (by rfl)
  have h3 := rewritten_request_url targetEmpty lineW parsedW requestEmptyTarget (by decide)
    parsedW_eq rfl (Or.inr (by rfl)) (Or.inl rfl) (by decide) (fun hw => by rfl) (by rfl)
  have h4 := rewritten_request_url targetW lineEscaped parsedEscaped requestEscaped
    (by decide) (by rfl) rfl (Or.inr (by rfl)) (Or.inr (by rfl)) (by decide)
    (fun hw => by rfl) (by rfl)
  obtain ⟨_, _, a1, _, a2, a3, a4, _, _, a5, a6, a7, _, _⟩ := h
  obtain ⟨_, _, b1, _, b2, _⟩ := h2
  obtain ⟨_, _, c1, _, c2, c3, _⟩ := h3
  obtain ⟨_, _, _, _, _, d1, _, d2, _⟩ := h4
  have h5 := rewritten_request_url targetW lineForce parsedForce requestForce
    (by decide) (by rfl) rfl (Or.inr (by rfl)) (Or.inr (by rfl)) (by decide)
    (fun hw => by rfl) (by rfl)
  exact ⟨parsedW_eq, by rfl, a1 (by rfl), a2 (by decide), a3, a4, a5, a6, a7, by rfl,
    b1 (by rfl), b2 (by decide), by rfl, c1 (by rfl), c2 (by decide), c3, by rfl, by rfl,
    d1, d2 (by decide) (by rfl), by rfl, by rfl, h5.2.2.2.2.2.2.2.2.2.2.2.2.2.2.1⟩

/-- C4: when the URL of the line does not parse, the call records a failure (failure
counter plus one, success counter unchanged), returns a non-nil error whose message is
"error parsing URL " followed by the offending URL string and the parser's message, makes
no call of the transport (the trace gains only the debug line and the call of `fail()`),
and leaves the latency counter unchanged. -/
theorem parse_failure_recorded (env : Env) (target : URL) (line : logLine) (w : World)
    (quote : String → String) (e : GoError) (hp : urlParse line.url = .error e) :
    (sendRequest env target line w).2.stats.failure = w.stats.failure + 1 ∧
    (sendRequest env target line w).2.stats.success = w.stats.success ∧
    (sendRequest env target line w).2.stats.latencySinceEpochMs
      = w.stats.latencySinceEpochMs ∧
    (∃ err, (sendRequest env target line w).1 = some err ∧
      err.Error quote = "error parsing URL " ++ line.url ++ ": " ++ e.Error quote ∧
      ∃ pre post, err.Error quote = pre ++ line.url ++ post) ∧
    (sendRequest env target line w).2.trace
      = w.trace ++ [.Debugf "replaying line: %v" [], .fail] ∧
    (∀ ev ∈ [Event.Debugf "replaying line: %v" [], Event.fail],
      ev.isDo = false ∧ ev.isAddLatency = false) := by
  rw [sendRequest_parse_error env target line w e hp]
  refine ⟨by simp [fail], by simp [fail], by simp [fail], ?_, by simp [earlyFailureEvents], ?_⟩
  · refine ⟨_, rfl, ?_, "error parsing URL ", ": " ++ e.Error quote, ?_⟩
    · simp [Wrapf, GoError.Error]
    · simp [Wrapf, GoError.Error, String.append_assoc]
  · intro ev hev
    simp at hev
    rcases hev with rfl | rfl <;> simp [Event.isDo, Event.isAddLatency]

/-- Witness of C4: the line with URL `http://%zz`, from the initial state. -/
theorem parse_failure_recorded_witness :
    urlParse lineBad.url = .error parseErrW ∧
    (sendRequest (envStatus "200 OK" 200) targetW lineBad w0).2.stats.failure = 1 ∧
    (sendRequest (envStatus "200 OK" 200) targetW lineBad w0).2.stats.success = 0 ∧
    (sendRequest (envStatus "200 OK" 200) targetW lineBad w0).2.stats.latencySinceEpochMs = 0 ∧
    (∀ quote : String → String,
      ∃ err, (sendRequest (envStatus "200 OK" 200) targetW lineBad w0).1 = some err ∧
        err.Error quote
          = "error parsing URL " ++ lineBad.url ++ ": " ++ parseErrW.Error quote) ∧
    (sendRequest (envStatus "200 OK" 200) targetW lineBad w0).2.trace
      = [.Debugf "replaying line: %v" [], .fail] := by
  have h := fun quote => parse_failure_recorded (envStatus "200 OK" 200) targetW lineBad w0
    quote parseErrW parseErrW_eq
  obtain ⟨h1, h2, h3, _, h5, _⟩ := h id
  refine ⟨parseErrW_eq, by simpa [w0] using h1, by simpa [w0] using h2,
    by simpa [w0] using h3, ?_, by simpa [w0] using h5⟩
  intro quote
  obtain ⟨_, _, _, ⟨err, he, hm, _⟩, _, _⟩ := h quote
  exact ⟨err, he, hm⟩


/-- C5: the call returns a non-nil error exactly when URL parsing fails, or request
construction fails, or the transport returns an error; whenever the transport returns a
response the call returns nil, whatever the status code. -/
theorem error_iff_no_response (env : Env) (target : URL) (line : logLine) (w : World) :
    ((sendRequest env target line w).1 ≠ none ↔
      ((∃ e, urlParse line.url = .error e) ∨
       (∃ u e, urlParse line.url = .ok u ∧
          NewRequest line.method (rewriteURL target u).String none = .error e) ∨
       (∃ u request e, urlParse line.url = .ok u ∧
          NewRequest line.method (rewriteURL target u).String none = .ok request ∧
          env.Do (setHeaders target line request) = .error e))) ∧
    (∀ u request res, urlParse line.url = .ok u →
      NewRequest line.method (rewriteURL target u).String none = .ok request →
      env.Do (setHeaders target line request) = .ok res →
      (sendRequest env target line w).1 = none) := by
  constructor
  · rcases sendRequest_cases env target line with ⟨e, hp⟩ | ⟨u, e, hp, hr⟩ |
      ⟨u, request, e, hp, hr, hd⟩ | ⟨u, request, res, hp, hr, hd⟩
    · rw [sendRequest_parse_error env target line w e hp]
      simp only [ne_eq, reduceCtorEq, not_false_eq_true, true_iff]
      exact Or.inl ⟨e, hp⟩
    · rw [sendRequest_build_error env target line w u e hp hr]
      simp only [ne_eq, reduceCtorEq, not_false_eq_true, true_iff]
      exact Or.inr (Or.inl ⟨u, e, hp, hr⟩)
    · rw [sendRequest_transport_error env target line w u request e hp hr hd]
      simp only [ne_eq, reduceCtorEq, not_false_eq_true, true_iff]
      exact Or.inr (Or.inr ⟨u, request, e, hp, hr, hd⟩)
    · rw [sendRequest_response env target line w u request res hp hr hd]
      simp only [ne_eq, not_true_eq_false, false_iff, not_or, not_exists, not_and]
      refine ⟨?_, ?_, ?_⟩
      · intro e he; rw [hp] at he; cases he
      · intro u2 e hu he
        rw [hp] at hu; cases hu
        rw [hr] at he; cases he
      · intro u2 r2 e hu hr2 he
        rw [hp] at hu; cases hu
        rw [hr] at hr2; cases hr2
        rw [hd] at he; cases he
  · intro u request res hp hr hd
    rw [sendRequest_response env target line w u request res hp hr hd]

/-- Witness of C5: a 500 response gives nil; an unparsable URL and a refused connection
give an error. -/
theorem error_iff_no_response_witness :
    (sendRequest (envStatus "500 Internal Server Error" 500) targetW lineW w0).1 = none ∧
    (sendRequest (envStatus "200 OK" 200) targetW lineBad w0).1 ≠ none ∧
    (sendRequest envRefused targetW lineW w0).1 ≠ none :=
  ⟨(error_iff_no_response (envStatus "500 Internal Server Error" 500) targetW lineW w0).2
      parsedW requestW { Status := "500 Internal Server Error", StatusCode := 500 }
      parsedW_eq requestW_eq rfl,
   (error_iff_no_response (envStatus "200 OK" 200) targetW lineBad w0).1.mpr
      (Or.inl ⟨parseErrW, parseErrW_eq⟩),
   (error_iff_no_response envRefused targetW lineW w0).1.mpr
      (Or.inr (Or.inr ⟨parsedW, requestW, refusedW, parsedW_eq, requestW_eq, rfl⟩))⟩

/-- C6: when parsing and request construction succeed and the transport returns the
error `e`, the call records a failure (failure counter plus one, success counter
unchanged), returns an error that wraps `e` (its cause is `e`) and whose message is
"error sending request for " followed by the rewritten URL string and the message of
`e`, reads no response body (the trace gains no `Copy`), and leaves the latency counter
unchanged. -/
theorem transport_failure_recorded (env : Env) (target : URL) (line : logLine) (w : World)
    (quote : String → String) (u : URL) (request : Request) (e : GoError)
    (hp : urlParse line.url = .ok u)
    (hr : NewRequest line.method (rewriteURL target u).String none = .ok request)
    (hd : env.Do (setHeaders target line request) = .error e) :
    (sendRequest env target line w).2.stats.failure = w.stats.failure + 1 ∧
    (sendRequest env target line w).2.stats.success = w.stats.success ∧
    (sendRequest env target line w).2.stats.latencySinceEpochMs
      = w.stats.latencySinceEpochMs ∧
    (∃ msg, (sendRequest env target line w).1 = some (.withMessage e msg) ∧
      Cause (.withMessage e msg) = Cause e ∧
      (GoError.withMessage e msg).Error quote
        = "error sending request for " ++ (rewriteURL target u).String ++ ": "
            ++ e.Error quote ∧
      ∃ pre post, (GoError.withMessage e msg).Error quote
        = pre ++ (rewriteURL target u).String ++ post) ∧
    (∃ added, (sendRequest env target line w).2.trace = w.trace ++ added ∧
      (∀ ev ∈ added, ev.isCopy = false ∧ ev.isAddLatency = false) ∧
      Event.Do (setHeaders target line request) ∈ added) := by
  rw [sendRequest_transport_error env target line w u request e hp hr hd]
  refine ⟨by simp [fail], by simp [fail], by simp [fail], ?_, ?_⟩
  · refine ⟨_, rfl, by simp [Cause], ?_, "error sending request for ",
      ": " ++ e.Error quote, ?_⟩
    · simp [GoError.Error]
    · simp [GoError.Error, String.append_assoc]
  · refine ⟨sendEvents env (setHeaders target line request) ++ [.fail], ?_, ?_, ?_⟩
    · simp
    · intro ev hev
      simp [sendEvents] at hev
      rcases hev with rfl | rfl | rfl | rfl | rfl <;> simp [Event.isCopy, Event.isAddLatency]
    · simp [sendEvents]

/-- Witness of C6: a refused connection for the example line. -/
theorem transport_failure_recorded_witness :
    envRefused.Do (setHeaders targetW lineW requestW) = .error refusedW ∧
    (sendRequest envRefused targetW lineW w0).2.stats.failure = 1 ∧
    (sendRequest envRefused targetW lineW w0).2.stats.success = 0 ∧
    (sendRequest envRefused targetW lineW w0).2.stats.latencySinceEpochMs = 0 ∧
    (∀ quote : String → String,
      ∃ msg, (sendRequest envRefused targetW lineW w0).1 = some (.withMessage refusedW msg) ∧
        (GoError.withMessage refusedW msg).Error quote
          = "error sending request for " ++ "https://replay.test/a/b?x=1#frag" ++ ": "
              ++ refusedW.Error quote) := by
  have h := fun quote => transport_failure_recorded envRefused targetW lineW w0 quote parsedW
    requestW refusedW parsedW_eq requestW_eq rfl
  obtain ⟨h1, h2, h3, _, _⟩ := h id
  refine ⟨rfl, by simpa [w0] using h1, by simpa [w0] using h2, by simpa [w0] using h3, ?_⟩
  intro quote
  obtain ⟨_, _, _, ⟨msg, he, _, hm, _⟩, _⟩ := h quote
  exact ⟨msg, he, hm⟩


/-- C7 (amended): for every line for which a request is built, the request handed to the
transport is the built request with the four headers set; its method is `line.method`,
or GET when `line.method` is empty; it has no body; its header map holds exactly
`line.userAgent` under User-Agent, the fixed value under Accept-Language, `target.Host`
under Host and `line.ipclient` under X-Forwarded-For.  Its `Host` field, which is what a
client request sends as Host header, is not assigned by `sendRequest`: it is the host of
the request URL, that is the host that `http.NewRequest` parses from the string of the
rewritten URL, without a trailing empty port.  When the line is a byte string whose
parsed URL is not opaque and has an escaped path that is empty or begins with a slash,
the target's scheme is empty or valid, the target's host is a byte string, and the
escaped path does not begin with two slashes when no authority is written, the `Host`
field is the target's host without a trailing empty port, and the target's host itself
when that does not end in a colon. -/
theorem request_handed_to_transport (env : Env) (target : URL) (line : logLine) (w : World)
    (u : URL) (request : Request)
    (hp : urlParse line.url = .ok u)
    (hr : NewRequest line.method (rewriteURL target u).String none = .ok request) :
    (∃ rest, (sendRequest env target line w).2.trace
        = w.trace ++ [.Debugf "replaying line: %v" [],
            .Debugf "Sending %s" [(setHeaders target line request).URL.String],
            .Now env.startTime, .Do (setHeaders target line request)] ++ rest ∧
        ∀ ev ∈ rest, ev.isDo = false) ∧
    (setHeaders target line request).Method
      = (if line.method = "" then "GET" else line.method) ∧
    (line.method ≠ "" → (setHeaders target line request).Method = line.method) ∧
    (setHeaders target line request).Body = none ∧
    (setHeaders target line request).Header.lookup "User-Agent" = some [line.userAgent] ∧
    (setHeaders target line request).Header.lookup "Accept-Language"
      = some ["en-US;q=0.9,en;q=0.8"] ∧
    (setHeaders target line request).Header.lookup "Host" = some [target.Host] ∧
    (setHeaders target line request).Header.lookup "X-Forwarded-For" = some [line.ipclient] ∧
    (setHeaders target line request).Header.Get "User-Agent" = line.userAgent ∧
    (setHeaders target line request).Header.Get "Accept-Language" = "en-US;q=0.9,en;q=0.8" ∧
    (setHeaders target line request).Header.Get "Host" = target.Host ∧
    (setHeaders target line request).Header.Get "X-Forwarded-For" = line.ipclient ∧
    (setHeaders target line request).Host = request.Host ∧
    (setHeaders target line request).Host = (setHeaders target line request).URL.Host ∧
    (∃ u2, urlParse (rewriteURL target u).String = .ok u2 ∧
      (setHeaders target line request).Host = removeEmptyPort u2.Host) ∧
    (isBytes line.url.data → u.Opaque = "" →
      (u.EscapedPath = [] ∨ u.EscapedPath.head? = some '/') →
      (target.Scheme = "" ∨ validScheme target.Scheme = true) →
      isBytes target.Host.data →
      (writesAuthority target u = false → hasPrefix u.EscapedPath ['/', '/'] = false) →
      (setHeaders target line request).Host = removeEmptyPort target.Host ∧
      (target.Host.data.getLast? ≠ some ':' →
        (setHeaders target line request).Host = target.Host)) := by
  obtain ⟨hm, hb, hh, u2, hu2, hurl, hhost⟩ := NewRequest_ok _ _ _ _ hr
  obtain ⟨k1, k2, k3, k4⟩ := canonical_keys
  have hH : (setHeaders target line request).Host = request.Host := rfl
  have hU : (setHeaders target line request).URL = request.URL := rfl
  refine ⟨?_, ?_, ?_, ?_, ?_, ?_, ?_, ?_, ?_, ?_, ?_, ?_, hH, ?_, ?_, ?_⟩
  · cases hd : env.Do (setHeaders target line request) with
    | error e =>
      rw [sendRequest_transport_error env target line w u request e hp hr hd]
      refine ⟨[.fail], by simp [sendEvents], ?_⟩
      intro ev hev
      simp at hev
      subst hev
      rfl
    | ok res =>
      rw [sendRequest_response env target line w u request res hp hr hd]
      refine ⟨responseEvents env res, by simp [sendEvents], ?_⟩
      intro ev hev
      simp only [responseEvents, List.mem_cons, List.mem_singleton, List.not_mem_nil,
        or_false] at hev
      rcases hev with rfl | rfl | rfl | rfl | rfl | rfl
      · rfl
      · rcases outcomeEvent_eq res.StatusCode with ⟨_, _, h⟩ | ⟨_, h⟩ <;> rw [h] <;> rfl
      · rfl
      · rfl
      · rfl
      · rfl
  · simpa [setHeaders] using hm
  · intro hne
    simp [setHeaders, hm, hne]
  · simpa [setHeaders] using hb
  · simp [setHeaders, Header.Set, Header.Get, k1, k2, k3, k4, hh, List.lookup]
  · simp [setHeaders, Header.Set, Header.Get, k1, k2, k3, k4, hh, List.lookup]
  · simp [setHeaders, Header.Set, Header.Get, k1, k2, k3, k4, hh, List.lookup]
  · simp [setHeaders, Header.Set, Header.Get, k1, k2, k3, k4, hh, List.lookup]
  · simp [setHeaders, Header.Set, Header.Get, k1, k2, k3, k4, hh, List.lookup]
  · simp [setHeaders, Header.Set, Header.Get, k1, k2, k3, k4, hh, List.lookup]
  · simp [setHeaders, Header.Set, Header.Get, k1, k2, k3, k4, hh, List.lookup]
  · simp [setHeaders, Header.Set, Header.Get, k1, k2, k3, k4, hh, List.lookup]
  · rw [hH, hU, hhost, hurl]
  · exact ⟨u2, hu2, by rw [hH, hhost]⟩
  · intro hbl ho hs hS hbH hn
    obtain ⟨_, _, h3, _⟩ := rewritten_roundtrip target line u request hbl hp ho hs hS hbH hn hr
    rw [hH]
    refine ⟨h3, fun hc => ?_⟩
    rw [h3, removeEmptyPort_noColon target.Host hc]

/-- Counterexample to C7 as stated.  For a line with an empty method a request is built
and handed to the transport, and its method is GET, not the empty `line.method`.  The
`Host` field of the request, which a client request sends as its Host header, is not the
target's host in general: for the line URL `http:foo` on target `https://replay.test` it
is empty, and on the target host `replay.test:` it is `replay.test`, while the header map
holds the target's host under Host in both cases. -/
theorem request_method_counterexample :
    urlParse lineNoMethod.url = .ok parsedW ∧
    NewRequest lineNoMethod.method (rewriteURL targetW parsedW).String none = .ok requestW ∧
    Event.Do (setHeaders targetW lineNoMethod requestW)
      ∈ (sendRequest (envStatus "200 OK" 200) targetW lineNoMethod w0).2.trace ∧
    (setHeaders targetW lineNoMethod requestW).Method = "GET" ∧
    lineNoMethod.method = "" ∧
    (setHeaders targetW lineNoMethod requestW).Method ≠ lineNoMethod.method ∧
    urlParse lineOpaque.url = .ok parsedOpaque ∧
    NewRequest lineOpaque.method (rewriteURL targetW parsedOpaque).String none
      = .ok requestOpaque ∧
    Event.Do (setHeaders targetW lineOpaque requestOpaque)
      ∈ (sendRequest envNoHost targetW lineOpaque w0).2.trace ∧
    (setHeaders targetW lineOpaque requestOpaque).Host = "" ∧
    (setHeaders targetW lineOpaque requestOpaque).Header.Get "Host" = "replay.test" ∧
    (setHeaders targetW lineOpaque requestOpaque).Host ≠ targetW.Host ∧
    urlParse lineW.url = .ok parsedW ∧
    NewRequest lineW.method (rewriteURL targetColon parsedW).String none = .ok requestW ∧
    Event.Do (setHeaders targetColon lineW requestW)
      ∈ (sendRequest (envStatus "200 OK" 200) targetColon lineW w0).2.trace ∧
    (setHeaders targetColon lineW requestW).Host = "replay.test" ∧
    (setHeaders targetColon lineW requestW).Header.Get "Host" = "replay.test:" ∧
    (setHeaders targetColon lineW requestW).Host ≠ targetColon.Host := by
  refine ⟨by rfl, by rfl, ?_, by rfl, by rfl, by decide, by rfl, by rfl, ?_, by rfl, by rfl,
    by decide, by rfl, by rfl, ?_, by rfl, by rfl, by decide⟩
  · rw [sendRequest_response (envStatus "200 OK" 200) targetW lineNoMethod w0 parsedW requestW
      { Status := "200 OK", StatusCode := 200 } (by rfl) (by rfl) rfl]
    simp [sendEvents]
  · rw [sendRequest_transport_error envNoHost targetW lineOpaque w0 parsedOpaque requestOpaque
      _ (by rfl) (by rfl) rfl]
    simp [sendEvents]
  · rw [sendRequest_response (envStatus "200 OK" 200) targetColon lineW w0 parsedW requestW
      { Status := "200 OK", StatusCode := 200 } (by rfl) (by rfl) rfl]
    simp [sendEvents]

/-- Witness of C7 (amended): the example line (method GET) and the line with an empty
method on target `https://replay.test`, and the example line on the target host
`replay.test:`. -/
theorem request_handed_to_transport_witness :
    (setHeaders targetW lineW requestW).Method = "GET" ∧
    (setHeaders targetW lineW requestW).Body = none ∧
    (setHeaders targetW lineW requestW).Header.Get "User-Agent" = "curl/8.0" ∧
    (setHeaders targetW lineW requestW).Header.Get "Host" = "replay.test" ∧
    (setHeaders targetW lineW requestW).Header.Get "X-Forwarded-For" = "203.0.113.7" ∧
    (setHeaders targetW lineNoMethod requestW).Method = "GET" ∧
    (setHeaders targetW lineW requestW).Host = "replay.test" ∧
    (setHeaders targetW lineW requestW).Host = targetW.Host ∧
    (setHeaders targetColon lineW requestW).Host = removeEmptyPort "replay.test:" ∧
    (setHeaders targetColon lineW requestW).Host = "replay.test" := by
  have h := request_handed_to_transport (envStatus "200 OK" 200) targetW lineW w0 parsedW
    requestW parsedW_eq requestW_eq
  have h2 := request_handed_to_transport (envStatus "200 OK" 200) targetW lineNoMethod w0
    parsedW requestW (by rfl) (by rfl)
  have h3 := request_handed_to_transport (envStatus "200 OK" 200) targetColon lineW w0
    parsedW requestW parsedW_eq (by rfl)
  obtain ⟨_, _, a1, a2, _, _, _, _, a3, _, a4, a5, _, _, _, a6⟩ := h
  obtain ⟨_, _, _, _, _, _, _, _, _, _, _, _, _, _, _, c6⟩ := h3
  have a7 := a6 (by decide) rfl (Or.inr (by rfl)) (Or.inr (by rfl)) (by decide)
    (fun hw => by rfl)
  have c7 := c6 (by decide) rfl (Or.inr (by rfl)) (Or.inr (by rfl)) (by decide)
    (fun hw => by rfl)
  exact ⟨a1 (by decide), a2, a3, a4, a5, h2.2.1, a7.2 (by decide), a7.2 (by decide), c7.1,
    by rfl⟩

/-- Counterexample to C8 as stated: in a completed call the second clock reading comes
before the body is closed, not after: the deferred `Close` is the last event, after the
reading and after the addition to the latency counter. -/
theorem latency_end_before_close_counterexample :
    (sendRequest (envStatus "200 OK" 200) targetW lineW w0).2.trace
      = [.Debugf "replaying line: %v" [],
         .Debugf "Sending %s" ["https://replay.test/a/b?x=1#frag"],
         .Now { ext := 1000 },
         .Do (setHeaders targetW lineW requestW),
         .Debugf "Response: %s" ["200 OK"],
         .success,
         .Copy { Status := "200 OK", StatusCode := 200 } (0, none),
         .Now { ext := 5002000 },
         .AddLatency 5,
         .Close { Status := "200 OK", StatusCode := 200 }] ∧
    List.indexOf (Event.Now { ext := 5002000 })
        (sendRequest (envStatus "200 OK" 200) targetW lineW w0).2.trace
      < List.indexOf (Event.Close { Status := "200 OK", StatusCode := 200 })
        (sendRequest (envStatus "200 OK" 200) targetW lineW w0).2.trace ∧
    ¬ (List.indexOf (Event.Close { Status := "200 OK", StatusCode := 200 })
        (sendRequest (envStatus "200 OK" 200) targetW lineW w0).2.trace
      < List.indexOf (Event.Now { ext := 5002000 })
        (sendRequest (envStatus "200 OK" 200) targetW lineW w0).2.trace) := by
  rw [sendRequest_response (envStatus "200 OK" 200) targetW lineW w0 parsedW requestW
    { Status := "200 OK", StatusCode := 200 } parsedW_eq requestW_eq rfl]
  refine ⟨by rfl, by decide, by decide⟩

/-- C8 (amended): when the transport returns a response, and the clock is monotonic and
inside the int64 range, the call adds to the latency counter exactly once, and the amount
is the whole number of milliseconds (nanoseconds divided by 1,000,000, rounded down,
non-negative) between the reading taken immediately before the call of the transport and
the reading taken after the drain of the body has returned and before the body is
closed; the addition is a uint64 addition, so it is exact whenever the sum stays below
2^64. -/
theorem latency_added_once (env : Env) (target : URL) (line : logLine) (w : World)
    (u : URL) (request : Request) (res : Response)
    (hp : urlParse line.url = .ok u)
    (hr : NewRequest line.method (rewriteURL target u).String none = .ok request)
    (hd : env.Do (setHeaders target line request) = .ok res)
    (h0 : 0 ≤ env.startTime.ext) (h1 : env.startTime.ext ≤ env.endTime.ext)
    (h2 : env.endTime.ext < 2 ^ 63) :
    (sendRequest env target line w).2.stats.latencySinceEpochMs
      = (w.stats.latencySinceEpochMs
          + ((env.endTime.ext - env.startTime.ext) / 1000000).toNat) % 2 ^ 64 ∧
    0 ≤ (env.endTime.ext - env.startTime.ext) / 1000000 ∧
    (w.stats.latencySinceEpochMs
        + ((env.endTime.ext - env.startTime.ext) / 1000000).toNat < 2 ^ 64 →
      (sendRequest env target line w).2.stats.latencySinceEpochMs
        = w.stats.latencySinceEpochMs
          + ((env.endTime.ext - env.startTime.ext) / 1000000).toNat) ∧
    (sendRequest env target line w).2.trace
      = w.trace ++
        [.Debugf "replaying line: %v" [],
         .Debugf "Sending %s" [(setHeaders target line request).URL.String],
         .Now env.startTime,
         .Do (setHeaders target line request),
         .Debugf "Response: %s" [res.Status],
         outcomeEvent res.StatusCode,
         .Copy res (env.Copy res),
         .Now env.endTime,
         .AddLatency ((env.endTime.ext - env.startTime.ext) / 1000000).toNat,
         .Close res] ∧
    (sendRequest env target line w).2.trace.countP Event.isAddLatency
      = w.trace.countP Event.isAddLatency + 1 := by
  rw [sendRequest_response env target line w u request res hp hr hd,
    elapsedMs_eq env.startTime env.endTime h0 h1 h2]
  have hl : ∀ s : Stats, (recordOutcome res.StatusCode s).latencySinceEpochMs
      = s.latencySinceEpochMs := by
    intro s
    rcases recordOutcome_eq res.StatusCode s with ⟨_, _, h⟩ | ⟨_, h⟩ <;> rw [h] <;> rfl
  refine ⟨by simp [addLatency, hl], ?_, ?_, ?_, ?_⟩
  · omega
  · intro hlt
    simp only [addLatency, hl]
    exact Nat.mod_eq_of_lt hlt
  · simp [sendEvents, responseEvents, elapsedMs_eq env.startTime env.endTime h0 h1 h2]
  · rcases outcomeEvent_eq res.StatusCode with ⟨_, _, h⟩ | ⟨_, h⟩ <;>
      simp [sendEvents, responseEvents, h, List.countP_append, List.countP_cons,
        Event.isAddLatency]

/-- Witness of C8 (amended): the example line, a 200 response, readings 1000 ns and
5002000 ns: 5 ms are added. -/
theorem latency_added_once_witness :
    (sendRequest (envStatus "200 OK" 200) targetW lineW w0).2.stats.latencySinceEpochMs = 5 := by
  have h := (latency_added_once (envStatus "200 OK" 200) targetW lineW w0 parsedW requestW
    { Status := "200 OK", StatusCode := 200 } parsedW_eq requestW_eq rfl
    (by decide) (by decide) (by decide)).1
  rw [h]
  decide

/-- Counterexample to C9 as stated: a 404 response is recorded as a failure, and the
latency counter changes all the same (from 0 to 5). -/
theorem failure_changes_latency_counterexample :
    (sendRequest (envStatus "404 Not Found" 404) targetW lineW w0).2.stats
      = { success := 0, failure := 1, latencySinceEpochMs := 5 } ∧
    w0.stats = { success := 0, failure := 0, latencySinceEpochMs := 0 } ∧
    (sendRequest (envStatus "404 Not Found" 404) targetW lineW w0).2.stats.latencySinceEpochMs
      ≠ w0.stats.latencySinceEpochMs := by
  rw [sendRequest_response (envStatus "404 Not Found" 404) targetW lineW w0 parsedW requestW
    { Status := "404 Not Found", StatusCode := 404 } parsedW_eq requestW_eq rfl]
  refine ⟨by decide, by rfl, by decide⟩

/-- C9 (amended): a call that fails without a response (malformed URL, request
construction failure, transport failure) changes only the failure counter: the success
counter and the latency counter are unchanged.  A call that fails because the response
has a status code outside [200,400) leaves the success counter unchanged, adds one to the
failure counter, and adds the elapsed milliseconds to the latency counter as for any
response.  In every call that raises the failure counter the success counter is
unchanged. -/
theorem failure_frame (env : Env) (target : URL) (line : logLine) (w : World) :
    (((∃ e, urlParse line.url = .error e) ∨
       (∃ u e, urlParse line.url = .ok u ∧
          NewRequest line.method (rewriteURL target u).String none = .error e) ∨
       (∃ u request e, urlParse line.url = .ok u ∧
          NewRequest line.method (rewriteURL target u).String none = .ok request ∧
          env.Do (setHeaders target line request) = .error e)) →
      (sendRequest env target line w).2.stats
        = { success := w.stats.success, failure := w.stats.failure + 1,
            latencySinceEpochMs := w.stats.latencySinceEpochMs }) ∧
    (∀ u request res, urlParse line.url = .ok u →
      NewRequest line.method (rewriteURL target u).String none = .ok request →
      env.Do (setHeaders target line request) = .ok res →
      ¬ (200 ≤ res.StatusCode ∧ res.StatusCode < 400) →
      (sendRequest env target line w).2.stats
        = { success := w.stats.success, failure := w.stats.failure + 1,
            latencySinceEpochMs :=
              (w.stats.latencySinceEpochMs + elapsedMs env.startTime env.endTime) % 2 ^ 64 }) ∧
    ((sendRequest env target line w).2.stats.failure = w.stats.failure + 1 →
      (sendRequest env target line w).2.stats.success = w.stats.success) := by
  refine ⟨?_, ?_, ?_⟩
  · rintro (⟨e, hp⟩ | ⟨u, e, hp, hr⟩ | ⟨u, request, e, hp, hr, hd⟩)
    · rw [sendRequest_parse_error env target line w e hp]; rfl
    · rw [sendRequest_build_error env target line w u e hp hr]; rfl
    · rw [sendRequest_transport_error env target line w u request e hp hr hd]; rfl
  · intro u request res hp hr hd hc
    rw [sendRequest_response env target line w u request res hp hr hd]
    rcases recordOutcome_eq res.StatusCode w.stats with ⟨h1, h2, _⟩ | ⟨_, h⟩
    · exact absurd ⟨h1, h2⟩ hc
    · rw [h]; rfl
  · rcases sendRequest_cases env target line with ⟨e, hp⟩ | ⟨u, e, hp, hr⟩ |
      ⟨u, request, e, hp, hr, hd⟩ | ⟨u, request, res, hp, hr, hd⟩
    · rw [sendRequest_parse_error env target line w e hp]; intro _; rfl
    · rw [sendRequest_build_error env target line w u e hp hr]; intro _; rfl
    · rw [sendRequest_transport_error env target line w u request e hp hr hd]; intro _; rfl
    · rw [sendRequest_response env target line w u request res hp hr hd]
      rcases recordOutcome_eq res.StatusCode w.stats with ⟨_, _, h⟩ | ⟨_, h⟩
      · rw [h]; simp [addLatency, success]
      · rw [h]; intro _; rfl

/-- Witness of C9 (amended): an unparsable URL changes only the failure counter; a 404
response also adds 5 ms of latency. -/
theorem failure_frame_witness :
    (sendRequest (envStatus "200 OK" 200) targetW lineBad w0).2.stats
      = { success := 0, failure := 1, latencySinceEpochMs := 0 } ∧
    (sendRequest (envStatus "404 Not Found" 404) targetW lineW w0).2.stats
      = { success := 0, failure := 1, latencySinceEpochMs := 5 } :=
  ⟨(failure_frame (envStatus "200 OK" 200) targetW lineBad w0).1
      (Or.inl ⟨parseErrW, parseErrW_eq⟩),
   (failure_frame (envStatus "404 Not Found" 404) targetW lineW w0).2.1 parsedW requestW
      { Status := "404 Not Found", StatusCode := 404 } parsedW_eq requestW_eq rfl
      (by decide)⟩

/-- C10: when the transport returns a response, the outcome is recorded before the body
is drained (in the trace the call of `success()` or `fail()` comes right before the
`Copy`), and a run in which the drain returns something else returns the same value
(nil) and leaves the same counters. -/
theorem drain_result_does_not_change_outcome (env : Env)
    (copy2 : Response → Int × Option GoError) (target : URL) (line : logLine) (w : World)
    (u : URL) (request : Request) (res : Response)
    (hp : urlParse line.url = .ok u)
    (hr : NewRequest line.method (rewriteURL target u).String none = .ok request)
    (hd : env.Do (setHeaders target line request) = .ok res) :
    (sendRequest { env with Copy := copy2 } target line w).1
      = (sendRequest env target line w).1 ∧
    (sendRequest env target line w).1 = none ∧
    (sendRequest { env with Copy := copy2 } target line w).2.stats
      = (sendRequest env target line w).2.stats ∧
    (sendRequest env target line w).2.trace
      = w.trace ++ sendEvents env (setHeaders target line request) ++
        [.Debugf "Response: %s" [res.Status], outcomeEvent res.StatusCode,
         .Copy res (env.Copy res), .Now env.endTime,
         .AddLatency (elapsedMs env.startTime env.endTime), .Close res] ∧
    (sendRequest { env with Copy := copy2 } target line w).2.trace
      = w.trace ++ sendEvents env (setHeaders target line request) ++
        [.Debugf "Response: %s" [res.Status], outcomeEvent res.StatusCode,
         .Copy res (copy2 res), .Now env.endTime,
         .AddLatency (elapsedMs env.startTime env.endTime), .Close res] ∧
    (outcomeEvent res.StatusCode = .success ∨ outcomeEvent res.StatusCode = .fail) := by
  have hd2 : ({ env with Copy := copy2 } : Env).Do (setHeaders target line request)
      = .ok res := hd
  rw [sendRequest_response env target line w u request res hp hr hd,
    sendRequest_response { env with Copy := copy2 } target line w u request res hp hr hd2]
  refine ⟨rfl, rfl, rfl, rfl, rfl, ?_⟩
  rcases outcomeEvent_eq res.StatusCode with ⟨_, _, h⟩ | ⟨_, h⟩
  · exact Or.inl h
  · exact Or.inr h

/-- Witness of C10: the example line with a 200 response, once with a clean drain and
once with a drain that fails after 10 bytes. -/
theorem drain_result_does_not_change_outcome_witness :
    (sendRequest (envDrainFails "200 OK" 200) targetW lineW w0).1
      = (sendRequest (envStatus "200 OK" 200) targetW lineW w0).1 ∧
    (sendRequest (envDrainFails "200 OK" 200) targetW lineW w0).2.stats
      = (sendRequest (envStatus "200 OK" 200) targetW lineW w0).2.stats := by
  have h := drain_result_does_not_change_outcome (envStatus "200 OK" 200)
    (fun _ => (10, some (.errorString "unexpected EOF"))) targetW lineW w0 parsedW requestW
    { Status := "200 OK", StatusCode := 200 } parsedW_eq requestW_eq rfl
  exact ⟨h.1, h.2.2.1⟩

end Play
